import Mathlib

/-!
Verification of the docx2pages structural parser (`scripts/parse_docx.py`).

The Python source works on `xml.etree.ElementTree` trees obtained from the
three resources of a DOCX zip container.  We embed the element trees, the
Python-dict bookkeeping and the parsing pipeline shallowly:

* `Elem` models an ElementTree element.  Tags and attribute names are stored
  with the WordprocessingML namespace already stripped (the source always
  accesses them through `'{%s}name' % NAMESPACES['w']` or strips that prefix),
  so `"p"`, `"tbl"`, `"t"`, ... stand for `w:p`, `w:tbl`, `w:t`, ...
  Elements and attributes outside that namespace keep a tag that can never
  collide with the stripped names, which is all the source can observe.
* Python dicts keyed by (optional) strings become association lists with
  insert-or-replace-in-place semantics (`dictInsert`), preserving insertion
  order exactly as CPython does.
* Fallible Python code (the `int(...)` conversion and the `None.lower()`
  attribute access that can escape `parse_docx`) is modelled in
  `Except PyErr`; exceptions that the source catches are modelled by the
  explicit constructors of `XmlSource` / `EntryData` / `Archive`.
* String classification helpers (`lower`, `replace(' ','')`, `isdigit`,
  `strip` truthiness, `int`) are re-implemented over the character lists of
  Lean strings; they agree with CPython on the ASCII strings the claims are
  about.
-/

namespace Docx2Pages

/-- A Python exception value that can escape the code under scrutiny. -/
inductive PyErr where
  /-- `AttributeError` (e.g. `None.lower()`). -/
  | attributeError : PyErr
  /-- `ValueError` from `int(...)` applied to a non-numeric string. -/
  | valueError (s : String) : PyErr
  /-- `TypeError` from `int(None)`. -/
  | typeError : PyErr
deriving Repr, DecidableEq

/-- An ElementTree element: tag (namespace-stripped), attributes
(namespace-stripped names), `.text` content, children in document order. -/
inductive Elem where
  | mk (tag : String) (attrs : List (String × String))
       (text : Option String) (children : List Elem)
deriving Repr

mutual
/-- Decidable equality of elements. -/
def decEqElem : (a b : Elem) → Decidable (a = b)
  | .mk t1 at1 x1 c1, .mk t2 at2 x2 c2 =>
    if h1 : t1 = t2 then
      if h2 : at1 = at2 then
        if h3 : x1 = x2 then
          match decEqElemList c1 c2 with
          | isTrue h4 => isTrue (by rw [h1, h2, h3, h4])
          | isFalse h4 => isFalse (fun he => by cases he; exact h4 rfl)
        else isFalse (fun he => by cases he; exact h3 rfl)
      else isFalse (fun he => by cases he; exact h2 rfl)
    else isFalse (fun he => by cases he; exact h1 rfl)

/-- Decidable equality of element lists. -/
def decEqElemList : (a b : List Elem) → Decidable (a = b)
  | [], [] => isTrue rfl
  | [], _ :: _ => isFalse (fun he => by cases he)
  | _ :: _, [] => isFalse (fun he => by cases he)
  | a :: as, b :: bs =>
    match decEqElem a b with
    | isTrue h1 =>
      match decEqElemList as bs with
      | isTrue h2 => isTrue (by rw [h1, h2])
      | isFalse h2 => isFalse (fun he => by cases he; exact h2 rfl)
    | isFalse h1 => isFalse (fun he => by cases he; exact h1 rfl)
end

instance : DecidableEq Elem := decEqElem

/-- The element's tag (namespace-stripped). -/
def Elem.tag : Elem → String
  | .mk t _ _ _ => t

/-- The element's attributes. -/
def Elem.attrs : Elem → List (String × String)
  | .mk _ a _ _ => a

/-- The element's `.text`. -/
def Elem.text : Elem → Option String
  | .mk _ _ x _ => x

/-- The element's children. -/
def Elem.children : Elem → List Elem
  | .mk _ _ _ cs => cs

/-- `elem.get('{w}name')`: attribute lookup, `None` when absent. -/
def Elem.get (e : Elem) (name : String) : Option String :=
  (e.attrs.find? (fun p => p.1 == name)).map Prod.snd

mutual
/-- `elem.iter()`: the element followed by all descendants, document order. -/
def Elem.iterAll : Elem → List Elem
  | .mk t a x cs => .mk t a x cs :: iterAllList cs

/-- `iter` over a list of sibling subtrees, document order. -/
def iterAllList : List Elem → List Elem
  | [] => []
  | c :: cs => c.iterAll ++ iterAllList cs
end

/-- `elem.find('w:name')`: first direct child with the given tag. -/
def Elem.findChild (e : Elem) (t : String) : Option Elem :=
  e.children.find? (fun c => c.tag == t)

/-- `elem.findall('w:name')`: all direct children with the given tag. -/
def Elem.findAllChildren (e : Elem) (t : String) : List Elem :=
  e.children.filter (fun c => c.tag == t)

/-- `elem.find('.//w:name')`: first proper descendant with the tag. -/
def Elem.findDesc (e : Elem) (t : String) : Option Elem :=
  (iterAllList e.children).find? (fun c => c.tag == t)

/-- `elem.findall('.//w:name')`: all proper descendants with the tag. -/
def Elem.findAllDesc (e : Elem) (t : String) : List Elem :=
  (iterAllList e.children).filter (fun c => c.tag == t)

/-! ### Python dict and string helpers -/

/-- CPython dict assignment `d[k] = v`: replace in place, else append. -/
def dictInsert {κ α : Type} [DecidableEq κ] :
    List (κ × α) → κ → α → List (κ × α)
  | [], k, v => [(k, v)]
  | (k', v') :: rest, k, v =>
      if k' = k then (k, v) :: rest else (k', v') :: dictInsert rest k v

/-- CPython dict lookup `d[k]` / `d.get(k)` / `k in d`. -/
def dictGet {κ α : Type} [DecidableEq κ] (m : List (κ × α)) (k : κ) : Option α :=
  (m.find? (fun p => p.1 = k)).map Prod.snd

/-- Python `str.lower` restricted to ASCII (all strings in scope are ASCII). -/
def pyLowerChar (c : Char) : Char := c.toLower

/-- `name.lower().replace(' ', '')` as a character list. -/
def normNameData (s : String) : List Char :=
  (s.data.map pyLowerChar).filter (fun c => c ≠ ' ')

/-- Python `str.isdigit` on ASCII strings: nonempty and all `0`-`9`. -/
def pyIsDigits (l : List Char) : Bool :=
  !l.isEmpty && l.all (fun c => c.isDigit)

/-- Numeric value of a string of decimal digits. -/
def digitsToNat (l : List Char) : Nat :=
  l.foldl (fun a c => a * 10 + (c.toNat - '0'.toNat)) 0

/-- Whitespace for Python `str.strip()` (ASCII fragment). -/
def pyIsSpace (c : Char) : Bool :=
  c = ' ' || c = '\t' || c = '\n' || c = '\x0d' || c = '\x0b' || c = '\x0c'

/-- Truthiness of `text.strip()`: some character is not whitespace. -/
def pyStripTruthy (s : String) : Bool :=
  s.data.any (fun c => !pyIsSpace c)

/-- Python `int(s)` on a string: optional surrounding whitespace, optional
sign, then a nonempty digit string; otherwise `ValueError`. -/
def pyIntStr (s : String) : Except PyErr Int :=
  let core := ((s.data.dropWhile pyIsSpace).reverse.dropWhile pyIsSpace).reverse
  match core with
  | '-' :: ds =>
      if pyIsDigits ds then .ok (-(digitsToNat ds : Int)) else .error (.valueError s)
  | '+' :: ds =>
      if pyIsDigits ds then .ok (digitsToNat ds : Int) else .error (.valueError s)
  | ds =>
      if pyIsDigits ds then .ok (digitsToNat ds : Int) else .error (.valueError s)

/-! ### `get_text` (source lines 21-54): the text-run collector -/

/-- `''.join(texts)`. -/
def joinAll (l : List String) : String := l.foldr (fun a b => a ++ b) ""

/-- Contribution of one visited node inside `get_text`'s loop. -/
def textContrib (e : Elem) : String :=
  if e.tag == "t" then
    match e.text with
    | some s => s          -- `if child.text:` appends the (truthy) text
    | none => ""
  else if e.tag == "tab" then "\t"
  else if e.tag == "br" then
    match e.get "type" with
    | none => "\n"         -- soft line break: no type attribute at all
    | some _ => ""         -- any explicit type (page or otherwise): nothing
  else if e.tag == "cr" then "\n"
  else ""

/-- `get_text(elem)`: join the contributions over `elem.iter()`. -/
def get_text (e : Elem) : String :=
  joinAll (e.iterAll.map textContrib)

/-! ### `count_breaks_in_paragraph` (source lines 56-73) -/

/-- `count_breaks_in_paragraph(para)`: page-type `w:br` markers anywhere in
the subtree plus one for a `w:sectPr` inside the first direct `w:pPr`. -/
def count_breaks_in_paragraph (para : Elem) : Nat :=
  let brs := (para.iterAll.filter (fun e => e.tag == "br")).countP
      (fun e => e.get "type" == some "page")
  let sect : Nat :=
    match para.findChild "pPr" with
    | some pPr => match pPr.findChild "sectPr" with
      | some _ => 1
      | none => 0
    | none => 0
  brs + sect

/-! ### `parse_styles` (source lines 75-144): the style resolver -/

/-- One entry of the `style_info` dict.  `is_title` / `is_subtitle` model the
keys that the source only sets inside the title/subtitle branches and later
reads via `info.get('is_title', False)`. -/
structure StyleRec where
  name : Option String
  based_on : Option String
  heading_level : Option Nat
  is_title : Bool := false
  is_subtitle : Bool := false
deriving Repr, DecidableEq

/-- `style_info`: a dict keyed by the optional `w:styleId` attribute. -/
abbrev StyleMap := List (Option String × StyleRec)

/-- One `w:style` element of the first pass of `parse_styles`
(lines 84-101): skip non-paragraph styles, else record name and parent. -/
def stylesFirstPassStep (m : StyleMap) (style : Elem) : StyleMap :=
  if style.get "type" == some "paragraph" then
    let style_id := style.get "styleId"
    let name : Option String :=
      match style.findChild "name" with
      | some nameElem => nameElem.get "val"
      | none => style_id
    let based_on : Option String :=
      match style.findChild "basedOn" with
      | some basedOnElem => basedOnElem.get "val"
      | none => none
    dictInsert m style_id ⟨name, based_on, none, false, false⟩
  else m

/-- First pass of `parse_styles`: collect paragraph styles (lines 84-101). -/
def stylesFirstPass (root : Elem) : StyleMap :=
  (root.findAllDesc "style").foldl stylesFirstPassStep []

/-- Heading classification of a normalised style name (lines 104-120):
`title`, `subtitle`, or `heading` followed by digits. -/
def detectRecord (r : StyleRec) : Except PyErr StyleRec :=
  match r.name with
  | none => .error .attributeError   -- `None.lower()` raises AttributeError
  | some nm =>
    let d := normNameData nm
    if d = "title".data then
      .ok { r with heading_level := some 0, is_title := true }
    else if d = "subtitle".data then
      .ok { r with heading_level := some 0, is_subtitle := true }
    else if "heading".data.isPrefixOf d ∧ pyIsDigits (d.drop 7) then
      .ok { r with heading_level := some (digitsToNat (d.drop 7)) }
    else .ok r

/-- Second pass of `parse_styles`: run the heading-name detection over the
dict in insertion order, stopping at the first raising entry. -/
def detectPass : StyleMap → Except PyErr StyleMap
  | [] => .ok []
  | (k, r) :: rest =>
    match detectRecord r with
    | .error e => .error e
    | .ok r' =>
      match detectPass rest with
      | .error e => .error e
      | .ok rest' => .ok ((k, r') :: rest')

/-- `get_heading_level` (lines 123-136) with explicit fuel standing for the
termination argument: the visited set can only grow inside the keys of the
dict, so `m.length + 1` steps always suffice (proved below). -/
def get_heading_level_fuel (m : StyleMap) :
    Nat → Option String → List (Option String) → Option Nat
  | 0, _, _ => none
  | fuel + 1, style_id, visited =>
    if style_id ∈ visited then none
    else
      match dictGet m style_id with
      | none => none
      | some info =>
        match info.heading_level with
        | some l => some l
        | none =>
          match info.based_on with
          | some b =>
              if b ≠ "" then       -- `if info['based_on']:` truthiness
                get_heading_level_fuel m fuel (some b) (style_id :: visited)
              else none
          | none => none

/-- `get_heading_level(style_id)` as called by the source: fresh visited set,
fuel large enough never to be exhausted. -/
def get_heading_level (m : StyleMap) (style_id : Option String) : Option Nat :=
  get_heading_level_fuel m (m.length + 1) style_id []

/-- One key of the third pass of `parse_styles` (lines 138-142): if the
style still lacks a level, walk its chain and store the result in place. -/
def resolveStep (acc : StyleMap) (style_id : Option String) : StyleMap :=
  match dictGet acc style_id with
  | some info =>
    match info.heading_level with
    | some _ => acc
    | none =>
      match get_heading_level acc style_id with
      | some l => dictInsert acc style_id { info with heading_level := some l }
      | none => acc
  | none => acc

/-- Third pass of `parse_styles` (lines 138-142): walk the `based_on` chain
for every style still lacking a level, mutating the dict in place while
iterating over its (unchanging) key sequence. -/
def resolvePass (m : StyleMap) : StyleMap :=
  (m.map Prod.fst).foldl resolveStep m

/-- `parse_styles` applied to an already-parsed styles root. -/
def parse_styles_root (root : Elem) : Except PyErr StyleMap :=
  match detectPass (stylesFirstPass root) with
  | .error e => .error e
  | .ok m => .ok (resolvePass m)

/-! ### `parse_numbering` (source lines 146-187): the numbering resolver -/

/-- One level entry of an abstract numbering definition. -/
structure LevelEntry where
  num_fmt : Option String
  is_ordered : Bool
deriving Repr, DecidableEq

/-- `numbering_info`: abstract formats and the numId → abstractNumId map. -/
structure NumberingInfo where
  abstract_nums : List (Option String × List (Option String × LevelEntry))
  nums : List (Option String × Option String)
deriving Repr, DecidableEq

/-- The empty numbering table (also the malformed-catalog fallback). -/
def emptyNumbering : NumberingInfo := ⟨[], []⟩

/-- `parse_numbering` applied to an already-parsed numbering root. -/
def parse_numbering_root (root : Elem) : NumberingInfo :=
  let abstract_nums :=
    (root.findAllDesc "abstractNum").foldl (fun m abstract =>
      let abstract_id := abstract.get "abstractNumId"
      let levels :=
        (abstract.findAllChildren "lvl").foldl (fun lm lvl =>
          let lvl_id := lvl.get "ilvl"
          let num_fmt : Option String :=
            match lvl.findChild "numFmt" with
            | some fmtElem => fmtElem.get "val"
            | none => some "bullet"
          let is_ordered := num_fmt ≠ some "bullet" ∧ num_fmt ≠ some "none"
          dictInsert lm lvl_id ⟨num_fmt, is_ordered⟩) []
      dictInsert m abstract_id levels) []
  let nums :=
    (root.findAllDesc "num").foldl (fun m num =>
      let num_id := num.get "numId"
      match num.findChild "abstractNumId" with
      | some abstractRef => dictInsert m num_id (abstractRef.get "val")
      | none => m) []
  ⟨abstract_nums, nums⟩

/-! ### `get_list_info` (source lines 189-221) -/

/-- The record returned for a list-item paragraph. -/
structure ListInfo where
  num_id : Option String
  ilvl : Int
  is_ordered : Bool
deriving Repr, DecidableEq

/-- `get_list_info(para, numbering_info)`.  `int(ilvl)` raises `TypeError`
when the `w:ilvl` element has no `w:val` and `ValueError` on a non-numeric
value; both escape `parse_docx`. -/
def get_list_info (para : Elem) (ni : NumberingInfo) :
    Except PyErr (Option ListInfo) :=
  match para.findDesc "numPr" with
  | none => .ok none
  | some num_pr =>
    match num_pr.findChild "numId" with
    | none => .ok none
    | some num_id_elem =>
      let num_id := num_id_elem.get "val"
      let ilvl : Option String :=
        match num_pr.findChild "ilvl" with
        | some ilvl_elem => ilvl_elem.get "val"
        | none => some "0"
      if num_id = some "0" then .ok none   -- numId="0" means no numbering
      else
        let is_ordered :=
          match dictGet ni.nums num_id with
          | none => false
          | some abstract_id =>
            match dictGet ni.abstract_nums abstract_id with
            | none => false
            | some levels =>
              match dictGet levels ilvl with
              | none => false
              | some entry => entry.is_ordered
        match ilvl with
        | none => .error .typeError
        | some s =>
          match pyIntStr s with
          | .error e => .error e
          | .ok n => .ok (some ⟨num_id, n, is_ordered⟩)

/-! ### `get_paragraph_style_id` and `parse_table` (source lines 223-247) -/

/-- `get_paragraph_style_id(para)`. -/
def get_paragraph_style_id (para : Elem) : Option String :=
  match para.findChild "pPr" with
  | none => none
  | some pPr =>
    match pPr.findChild "pStyle" with
    | none => none
    | some pStyle => pStyle.get "val"

/-- `parse_table(table_elem)`: rows of cell texts; each cell joins the
nonempty paragraph texts with a newline. -/
def parse_table (table_elem : Elem) : List (List String) :=
  (table_elem.findAllChildren "tr").map (fun tr =>
    (tr.findAllChildren "tc").map (fun tc =>
      let cell_texts :=
        ((tc.findAllChildren "p").map get_text).filter (fun t => t ≠ "")
      String.intercalate "\n" cell_texts))

/-! ### Blocks, statistics and the extraction state (source lines 249-457) -/

/-- The tagged block variants emitted by `parse_docx`. -/
inductive Block where
  | title (text : String)
  | subtitle (text : String)
  | heading (level : Nat) (text : String)
  | paragraph (text : String)
  | list (ordered : Bool) (items : List (String × Int))
  | table (rows : List (List String))
  | pageBreak
deriving Repr, DecidableEq

/-- The `stats` record (nested dicts of the source flattened to fields;
`headings` keeps the insertion-ordered dict of per-level counters). -/
structure Stats where
  headings : List (String × Nat)
  paragraphs : Nat
  lists_bulleted : Nat
  lists_numbered : Nat
  tables_count : Nat
  tables_max_rows : Nat
  tables_max_cols : Nat
  warnings : List String
  dropped_breaks : Nat
deriving Repr, DecidableEq

/-- The initial `stats` dict of `parse_docx` (lines 259-266). -/
def stats0 : Stats := ⟨[], 0, 0, 0, 0, 0, 0, [], 0⟩

/-- The result `{'blocks': ..., 'stats': ...}`. -/
structure ParseResult where
  blocks : List Block
  stats : Stats
deriving Repr, DecidableEq

/-- The mutable state of the body loop: output so far, statistics, and the
open list with its `(num_id, is_ordered)` identity (lines 339-351). -/
structure LoopState where
  blocks : List Block
  stats : Stats
  current_list : Option (Bool × List (String × Int))
  current_list_identity : Option (Option String × Bool)
deriving Repr, DecidableEq

/-- `flush_list()` (lines 342-351): append the open list block and count it. -/
def flushList (st : LoopState) : LoopState :=
  match st.current_list with
  | none => st
  | some (ordered, items) =>
    { st with
      blocks := st.blocks ++ [.list ordered items]
      stats :=
        if ordered then
          { st.stats with lists_numbered := st.stats.lists_numbered + 1 }
        else
          { st.stats with lists_bulleted := st.stats.lists_bulleted + 1 }
      current_list := none
      current_list_identity := none }

/-- Break handling at the head of the paragraph branch (lines 358-368). -/
def breakHandle (preserve_breaks : Bool) (st : LoopState) (break_count : Nat) :
    LoopState :=
  if break_count > 0 then
    if preserve_breaks then
      let st := flushList st
      { st with blocks := st.blocks ++ List.replicate break_count .pageBreak }
    else
      { st with stats :=
          { st.stats with dropped_breaks := st.stats.dropped_breaks + break_count } }
  else st

/-- List-item handling (lines 376-393): on an identity change flush and open
a fresh list, then append this paragraph's item to the open list.  (When the
identity matches, the source's open list is necessarily a list value, since
`current_list` and `current_list_identity` are set and cleared together and
a list identity is never `None`; the `none` fallback is unreachable.) -/
def listStep (st : LoopState) (li : ListInfo) (text : String) : LoopState :=
  if st.current_list_identity ≠ some (li.num_id, li.is_ordered) then
    let st2 := flushList st
    { st2 with
      current_list := some (li.is_ordered, [(text, li.ilvl)])
      current_list_identity := some (li.num_id, li.is_ordered) }
  else
    match st.current_list with
    | some (ordered, items) =>
        { st with current_list := some (ordered, items ++ [(text, li.ilvl)]) }
    | none => st

/-- Heading/title/subtitle resolution for a paragraph (lines 399-407):
`if style_id and style_id in style_info` then the stored level and flags. -/
def paraStyleResolved (si : StyleMap) (para : Elem) :
    Option (Nat × Bool × Bool) :=
  match get_paragraph_style_id para with
  | none => none
  | some sid =>
    if sid = "" then none
    else
      match dictGet si (some sid) with
      | none => none
      | some info =>
        match info.heading_level with
        | none => none
        | some l => some (l, info.is_title, info.is_subtitle)

/-- `stats['headings'][key] = stats['headings'].get(key, 0) + 1`. -/
def bumpHeading (st : Stats) (key : String) : Stats :=
  { st with headings :=
      dictInsert st.headings key ((dictGet st.headings key).getD 0 + 1) }

/-- Classification of a non-list paragraph (lines 396-426): flush, build the
block, count it, and append it; a title/subtitle/heading block is always
appended (the source's `keep` test is true for those block types), a plain
paragraph only when its text has a non-whitespace character. -/
def classifyStep (si : StyleMap) (st : LoopState) (para : Elem) (text : String) :
    LoopState :=
  let st2 := flushList st
  match paraStyleResolved si para with
  | some (l, is_title, is_subtitle) =>
    if is_title then
      { st2 with stats := bumpHeading st2.stats "title",
                 blocks := st2.blocks ++ [Block.title text] }
    else if is_subtitle then
      { st2 with stats := bumpHeading st2.stats "subtitle",
                 blocks := st2.blocks ++ [Block.subtitle text] }
    else
      { st2 with stats := bumpHeading st2.stats ("level_" ++ Nat.repr l),
                 blocks := st2.blocks ++ [Block.heading l text] }
  | none =>
    { st2 with
      stats := { st2.stats with paragraphs := st2.stats.paragraphs + 1 },
      blocks :=
        if pyStripTruthy text then st2.blocks ++ [Block.paragraph text]
        else st2.blocks }

/-- Table handling (lines 428-439): flush, append the grid, count the table
and (for a nonempty grid) update the running maxima. -/
def tableStep (st : LoopState) (tbl : Elem) : LoopState :=
  let st2 := flushList st
  let rows := parse_table tbl
  { st2 with
    blocks := st2.blocks ++ [.table rows]
    stats :=
      if rows ≠ [] then
        { st2.stats with
          tables_count := st2.stats.tables_count + 1
          tables_max_rows := max st2.stats.tables_max_rows rows.length
          tables_max_cols :=
            max st2.stats.tables_max_cols ((rows.map List.length).foldl max 0) }
      else { st2.stats with tables_count := st2.stats.tables_count + 1 } }

/-- Body-level `w:sectPr` handling (lines 441-448). -/
def sectPrStep (preserve_breaks : Bool) (st : LoopState) : LoopState :=
  if preserve_breaks then
    let st := flushList st
    { st with blocks := st.blocks ++ [.pageBreak] }
  else
    { st with stats :=
        { st.stats with dropped_breaks := st.stats.dropped_breaks + 1 } }

/-- Dispatch on one body child (lines 354-448). -/
def processChild (preserve_breaks : Bool) (si : StyleMap) (ni : NumberingInfo)
    (st : LoopState) (child : Elem) : Except PyErr LoopState :=
  if child.tag == "p" then
    let st := breakHandle preserve_breaks st (count_breaks_in_paragraph child)
    let text := get_text child
    match get_list_info child ni with
    | .error e => .error e
    | .ok (some info) => .ok (listStep st info text)
    | .ok none => .ok (classifyStep si st child text)
  else if child.tag == "tbl" then .ok (tableStep st child)
  else if child.tag == "sectPr" then .ok (sectPrStep preserve_breaks st)
  else .ok st

/-- The body loop over all children in document order. -/
def processChildren (preserve_breaks : Bool) (si : StyleMap) (ni : NumberingInfo)
    (st : LoopState) : List Elem → Except PyErr LoopState
  | [] => .ok st
  | c :: cs =>
    match processChild preserve_breaks si ni st c with
    | .error e => .error e
    | .ok st' => processChildren preserve_breaks si ni st' cs

/-! ### The container model and the `parse_docx` entry point -/

/-- A resource payload: either markup that parses to a root element, or
markup on which `ET.fromstring` raises `ParseError` with message `err`. -/
inductive XmlSource where
  | wf (root : Elem)
  | malformed (err : String)
deriving Repr, DecidableEq

/-- One zip entry as observed through `zf.read`: the payload, or a read
error (caught by the source and turned into a warning). -/
inductive EntryData where
  | good (x : XmlSource)
  | readError (err : String)
deriving Repr, DecidableEq

/-- The archive as observed through `zipfile.ZipFile`: open failure modes
caught by the source, or the entry table. -/
inductive Archive where
  | badZip
  | fileNotFound
  | zip (entries : List (String × EntryData))
deriving Repr, DecidableEq

/-- Membership/lookup in the archive (`zf.namelist()` / `zf.read(name)`). -/
def lookupEntry (entries : List (String × EntryData)) (name : String) :
    Option EntryData :=
  (entries.find? (fun p => p.1 == name)).map Prod.snd

/-- The dropped-breaks warning of line 455. -/
def droppedWarning (n : Nat) : String :=
  "Dropped " ++ Nat.repr n ++
    " page/section break(s). Use --preserve-breaks to convert to blank paragraphs."

/-- Reading an optional resource (lines 293-307): absent is silent, a read
error yields a warning and the resource is treated as absent. -/
def readOptional (entries : List (String × EntryData)) (name : String)
    (warnPrefix : String) : Option XmlSource × List String :=
  match lookupEntry entries name with
  | none => (none, [])
  | some (.good x) => (some x, [])
  | some (.readError e) => (none, [warnPrefix ++ e])

/-- `parse_styles(styles_xml)` with the caller's `ET.ParseError` handler
(lines 311-316): malformed markup degrades to an empty dict plus a warning;
any other exception escapes. -/
def stylesStage (src : Option XmlSource) :
    Except PyErr (StyleMap × List String) :=
  match src with
  | none => .ok ([], [])
  | some (.malformed e) => .ok ([], ["Malformed styles.xml: " ++ e])
  | some (.wf root) =>
    match parse_styles_root root with
    | .error e => .error e
    | .ok m => .ok (m, [])

/-- `parse_numbering(numbering_xml)` with its handler (lines 318-323). -/
def numberingStage (src : Option XmlSource) : NumberingInfo × List String :=
  match src with
  | none => (emptyNumbering, [])
  | some (.malformed e) => (emptyNumbering, ["Malformed numbering.xml: " ++ e])
  | some (.wf root) => (parse_numbering_root root, [])

/-- Everything `parse_docx` does before the body loop. -/
inductive PrePhase where
  /-- An early return with a complete result (lines 269-336). -/
  | early (res : ParseResult)
  /-- A raising path (uncaught exception out of `parse_styles`). -/
  | crashed (e : PyErr)
  /-- The loop is reached with these warnings, resolvers and body element. -/
  | run (warnings : List String) (si : StyleMap) (ni : NumberingInfo) (body : Elem)
deriving Repr, DecidableEq

/-- Lines 268-336 of `parse_docx`: container validation, resource reading,
resolver construction, document parsing and body lookup. -/
def prePhase (a : Archive) : PrePhase :=
  match a with
  | .badZip => .early ⟨[], { stats0 with warnings := ["Invalid ZIP file structure"] }⟩
  | .fileNotFound => .early ⟨[], { stats0 with warnings := ["File not found"] }⟩
  | .zip entries =>
    match lookupEntry entries "word/document.xml" with
    | none =>
        .early ⟨[], { stats0 with
          warnings := ["No word/document.xml found - invalid DOCX"] }⟩
    | some (.readError e) =>
        .early ⟨[], { stats0 with
          warnings := ["Error reading document.xml: " ++ e] }⟩
    | some (.good docSrc) =>
      let (stylesSrc, w1) := readOptional entries "word/styles.xml"
        "Error reading styles.xml: "
      let (numberingSrc, w2) := readOptional entries "word/numbering.xml"
        "Error reading numbering.xml: "
      match stylesStage stylesSrc with
      | .error e => .crashed e
      | .ok (si, w3) =>
        let (ni, w4) := numberingStage numberingSrc
        let ws := w1 ++ w2 ++ w3 ++ w4
        match docSrc with
        | .malformed e =>
            .early ⟨[], { stats0 with
              warnings := ws ++ ["Malformed document.xml: " ++ e] }⟩
        | .wf root =>
          match root.findDesc "body" with
          | none =>
              .early ⟨[], { stats0 with
                warnings := ws ++ ["No body element found in document"] }⟩
          | some body => .run ws si ni body

/-- `parse_docx(docx_path, verbose, preserve_breaks)` (lines 249-457). -/
def parse_docx (a : Archive) (verbose preserve_breaks : Bool) :
    Except PyErr ParseResult :=
  match prePhase a with
  | .early res => .ok res
  | .crashed e => .error e
  | .run ws si ni body =>
    let _ := verbose
    let init : LoopState := ⟨[], { stats0 with warnings := ws }, none, none⟩
    match processChildren preserve_breaks si ni init body.children with
    | .error e => .error e
    | .ok st =>
      let st := flushList st
      let finalStats :=
        if st.stats.dropped_breaks > 0 && !preserve_breaks then
          { st.stats with warnings :=
              st.stats.warnings ++ [droppedWarning st.stats.dropped_breaks] }
        else st.stats
      .ok ⟨st.blocks, finalStats⟩

/-- Decidable equality for `Except`, for evaluating concrete runs. -/
instance {e a : Type} [DecidableEq e] [DecidableEq a] : DecidableEq (Except e a)
  | .ok x, .ok y =>
    match decEq x y with
    | isTrue h => isTrue (by rw [h])
    | isFalse h => isFalse (fun he => by cases he; exact h rfl)
  | .ok _, .error _ => isFalse (fun he => by cases he)
  | .error _, .ok _ => isFalse (fun he => by cases he)
  | .error x, .error y =>
    match decEq x y with
    | isTrue h => isTrue (by rw [h])
    | isFalse h => isFalse (fun he => by cases he; exact h rfl)

/-! ### Observation helpers used by the claim statements -/

/-- Is this block a `Break` block? -/
def isBreakBlock : Block → Bool
  | .pageBreak => true
  | _ => false

/-- Is this block a `List` block? -/
def isListBlock : Block → Bool
  | .list _ _ => true
  | _ => false

/-- The number of `Break` blocks in an output sequence. -/
def countBreakBlocks (bs : List Block) : Nat := bs.countP isBreakBlock

/-- The page/section breaks one body child accounts for, exactly as the body
loop counts them: `count_breaks_in_paragraph` for a paragraph, one for a
body-level `w:sectPr`, nothing otherwise. -/
def childBreaks (e : Elem) : Nat :=
  if e.tag == "p" then count_breaks_in_paragraph e
  else if e.tag == "tbl" then 0
  else if e.tag == "sectPr" then 1
  else 0

/-- Total page/section breaks of a body, summed over its children. -/
def totalBreaks (cs : List Elem) : Nat := (cs.map childBreaks).sum

/-- Contribution of one node according to the words of the spec claim about
the text-run collector: a break marker is a *soft break* (one newline)
whenever it does not carry an explicit `page` type attribute. -/
def specTextContribClaim (e : Elem) : String :=
  if e.tag == "t" then
    match e.text with
    | some s => s
    | none => ""
  else if e.tag == "tab" then "\t"
  else if e.tag == "br" then
    match e.get "type" with
    | some "page" => ""
    | _ => "\n"
  else if e.tag == "cr" then "\n"
  else ""

/-- The text-run collector as the claim words it. -/
def spec_get_text_claim (e : Elem) : String :=
  joinAll (e.iterAll.map specTextContribClaim)

mutual
/-- The amended text-run collector, written as a structural recursion over
the tree: own contribution followed by the children's, in document order. -/
def specTextAmended : Elem → String
  | .mk t a x cs => textContrib (.mk t a x cs) ++ specTextAmendedList cs

/-- Amended collector over a list of sibling subtrees. -/
def specTextAmendedList : List Elem → String
  | [] => ""
  | c :: cs => specTextAmended c ++ specTextAmendedList cs
end

/-! ### Concrete documents and archives used by witnesses, counterexamples
and code-bug evaluations -/

/-- Scenario D paragraph: text `A`, tab, text `B`, soft break, text `C`. -/
def exScenarioD : Elem := .mk "p" [] none
  [.mk "r" [] none
    [.mk "t" [] (some "A") [], .mk "tab" [] none [], .mk "t" [] (some "B") [],
     .mk "br" [] none [], .mk "t" [] (some "C") []]]

/-- A paragraph whose only marker is a break with the explicit (non-page)
type `textWrapping`. -/
def exBrTextWrapping : Elem := .mk "p" [] none
  [.mk "r" [] none [.mk "br" [("type", "textWrapping")] none []]]

/-- A styles catalog with a `Title` style and a custom style based on it. -/
def exStylesTitleChain : Elem := .mk "styles" [] none
  [.mk "style" [("type", "paragraph"), ("styleId", "T")] none
     [.mk "name" [("val", "Title")] none []],
   .mk "style" [("type", "paragraph"), ("styleId", "Cust")] none
     [.mk "name" [("val", "MyStyle")] none [],
      .mk "basedOn" [("val", "T")] none []]]

/-- A styles catalog whose only entry has a `w:name` element without a
`w:val` attribute: `parse_styles` evaluates `None.lower()` on it. -/
def exStylesCrash : Elem := .mk "styles" [] none
  [.mk "style" [("type", "paragraph"), ("styleId", "Bad")] none
     [.mk "name" [] none []]]

/-- An archive whose styles catalog makes `parse_styles` raise. -/
def exArchiveStylesCrash : Archive := .zip
  [("word/document.xml", .good (.wf (.mk "document" [] none
      [.mk "body" [] none []]))),
   ("word/styles.xml", .good (.wf exStylesCrash))]

/-- An empty table cell. -/
def exCell : Elem := .mk "tc" [] none [.mk "p" [] none []]

/-- A table row with `n` cells. -/
def exRow (n : Nat) : Elem := .mk "tr" [] none (List.replicate n exCell)

/-- A 3-row, 3-column table element. -/
def exTable33 : Elem := .mk "tbl" [] none (List.replicate 3 (exRow 3))

/-- A 4-row, 5-column table element. -/
def exTable45 : Elem := .mk "tbl" [] none (List.replicate 4 (exRow 5))

/-- An archive whose body is the 3×3 table followed by the 4×5 table. -/
def exArchiveTables : Archive := .zip
  [("word/document.xml", .good (.wf (.mk "document" [] none
      [.mk "body" [] none [exTable33, exTable45]])))]

/-- A list-item paragraph under numbering id 5, level 0, with text `txt` and
the extra runs `extra` before the text run. -/
def exListItem (txt : String) (extra : List Elem) : Elem := .mk "p" [] none
  ([.mk "pPr" [] none
      [.mk "numPr" [] none
        [.mk "numId" [("val", "5")] none [],
         .mk "ilvl" [("val", "0")] none []]]] ++
   extra ++ [.mk "r" [] none [.mk "t" [] (some txt) []]])

/-- An archive whose body is two list items of the same identity, the second
of which contains an embedded page break. -/
def exArchiveListSplit : Archive := .zip
  [("word/document.xml", .good (.wf (.mk "document" [] none
      [.mk "body" [] none
        [exListItem "one" [],
         exListItem "two"
           [.mk "r" [] none [.mk "br" [("type", "page")] none []]]]])))]

/-- An archive whose single paragraph uses the custom style based on
`Title`. -/
def exArchiveTitleChain : Archive := .zip
  [("word/document.xml", .good (.wf (.mk "document" [] none
      [.mk "body" [] none
        [.mk "p" [] none
          [.mk "pPr" [] none [.mk "pStyle" [("val", "Cust")] none []],
           .mk "r" [] none [.mk "t" [] (some "X") []]]]]))),
   ("word/styles.xml", .good (.wf exStylesTitleChain))]

/-- An archive whose document parses but has no `w:body` element, and whose
styles catalog makes `parse_styles` raise before the body check is reached. -/
def exArchiveNoBodyCrash : Archive := .zip
  [("word/document.xml", .good (.wf (.mk "document" [] none
      [.mk "other" [] none []]))),
   ("word/styles.xml", .good (.wf exStylesCrash))]

/-- A document root without any `w:body` descendant. -/
def exNoBodyRoot : Elem := .mk "document" [] none [.mk "other" [] none []]

/-- An archive whose document has no `w:body` element (and no catalogs). -/
def exArchiveNoBody : Archive := .zip
  [("word/document.xml", .good (.wf exNoBodyRoot))]

/-- A body with one paragraph containing a page break plus a body-level
section marker: two page/section breaks in total. -/
def exBreaksBody : Elem := .mk "body" [] none
  [.mk "p" [] none
    [.mk "r" [] none
      [.mk "br" [("type", "page")] none [],
       .mk "t" [] (some "hi") []]],
   .mk "sectPr" [] none []]

/-- An archive around `exBreaksBody`. -/
def exArchiveBreaks : Archive := .zip
  [("word/document.xml", .good (.wf (.mk "document" [] none [exBreaksBody])))]

/-- `parse_docx` on `exArchiveBreaks` with break preservation off. -/
def exBreaksResOff : ParseResult :=
  ⟨[.paragraph "hi"],
   { stats0 with paragraphs := 1, dropped_breaks := 2,
                 warnings := [droppedWarning 2] }⟩

/-- `parse_docx` on `exArchiveBreaks` with break preservation on. -/
def exBreaksResOn : ParseResult :=
  ⟨[.pageBreak, .paragraph "hi", .pageBreak], { stats0 with paragraphs := 1 }⟩

/-- The number of dict keys not yet in the visited set: the measure that
makes the `based_on` walk of `get_heading_level` terminate. -/
def unvisitedCount (m : StyleMap) (visited : List (Option String)) : Nat :=
  ((m.map Prod.fst).filter (fun k => decide (k ∉ visited))).length

/-- An archive whose styles catalog is present but malformed markup. -/
def exArchiveMalformedStyles : Archive := .zip
  [("word/document.xml", .good (.wf (.mk "document" [] none
      [.mk "body" [] none []]))),
   ("word/styles.xml", .good (.malformed "syntax error: line 1, column 0"))]

/-- A cyclic style catalog: `A` based on `B`, `B` based on `A`, and `C`
based on a style that does not exist; no style has a direct level. -/
def exCyclicStyles : StyleMap :=
  [(some "A", ⟨some "a", some "B", none, false, false⟩),
   (some "B", ⟨some "b", some "A", none, false, false⟩),
   (some "C", ⟨some "c", some "ghost", none, false, false⟩)]

/-! ## Helper lemmas -/

theorem joinAll_nil : joinAll [] = "" := rfl

theorem joinAll_cons (a : String) (l : List String) :
    joinAll (a :: l) = a ++ joinAll l := rfl

theorem joinAll_append (l1 l2 : List String) :
    joinAll (l1 ++ l2) = joinAll l1 ++ joinAll l2 := by
  induction l1 with
  | nil => simp [joinAll]
  | cons a as ih => simp only [List.cons_append, joinAll_cons, ih, String.append_assoc]

mutual
/-- The iteration-based collector agrees with the structural one. -/
theorem joinIter_textContrib (e : Elem) :
    joinAll (e.iterAll.map textContrib) = specTextAmended e := by
  match e with
  | .mk t a x cs =>
    rw [Elem.iterAll, List.map_cons, joinAll_cons, joinIterList_textContrib cs,
      specTextAmended]

/-- List version of `joinIter_textContrib`. -/
theorem joinIterList_textContrib (cs : List Elem) :
    joinAll ((iterAllList cs).map textContrib) = specTextAmendedList cs := by
  match cs with
  | [] => rfl
  | c :: rest =>
    rw [iterAllList, List.map_append, joinAll_append, joinIter_textContrib c,
      joinIterList_textContrib rest, specTextAmendedList]
end

/-! ## Claim C4: the text-run collector -/

/-- C4 (counterexample): the claim reads every break marker *without an
explicit page type* as a soft break producing a newline; on a break marker
with the explicit type `textWrapping` the code produces nothing, so the
collector disagrees with the claim's rule at this input. -/
theorem text_collector_claim_counterexample :
    get_text exBrTextWrapping = "" ∧
    spec_get_text_claim exBrTextWrapping = "\n" ∧
    get_text exBrTextWrapping ≠ spec_get_text_claim exBrTextWrapping := by decide

/-- C4 (amended): the collector concatenates, in document order, text-run
content verbatim, one tab per tab marker, one newline per break marker
carrying *no* type attribute at all, one newline per carriage-return marker,
and nothing for a break marker with any explicit type attribute; no trimming
or collapsing is applied (`specTextAmended` is that specification written as
a structural recursion).  On text=A, tab, text=B, soft break, text=C the
result is `A\tB\nC`. -/
theorem text_collector_amended :
    (∀ e : Elem, get_text e = specTextAmended e) ∧
    get_text exScenarioD = "A\tB\nC" := by
  refine ⟨fun e => ?_, by decide⟩
  rw [get_text]; exact joinIter_textContrib e

/-! ## Claim C5: the two-tables scenario -/

/-- C5 (counterexample): on the 3×3-then-4×5 body the table statistics are
`{count: 2, max_rows: 4, max_cols: 5}`, not the claimed
`{count: 2, max_rows: 5, max_cols: 5}` (no orientation of the two tables
can make both maxima 5). -/
theorem tables_scenario_counterexample :
    (parse_docx exArchiveTables false false).map
        (fun r => (r.stats.tables_count, r.stats.tables_max_rows,
                   r.stats.tables_max_cols)) = .ok (2, 4, 5) ∧
    (parse_docx exArchiveTables false false).map
        (fun r => (r.stats.tables_count, r.stats.tables_max_rows,
                   r.stats.tables_max_cols)) ≠ .ok (2, 5, 5) := by decide

/-- C5 (amended): a 3×3 table followed immediately by a 4×5 table yields
exactly two `Table` blocks in that order and table statistics
`{count: 2, max_rows: 4, max_cols: 5}`, the maxima taken across both
tables' dimensions independently. -/
theorem tables_scenario_amended :
    parse_docx exArchiveTables false false = .ok
      ⟨[.table [["", "", ""], ["", "", ""], ["", "", ""]],
        .table [["", "", "", "", ""], ["", "", "", "", ""],
                ["", "", "", "", ""], ["", "", "", "", ""]]],
       { stats0 with tables_count := 2, tables_max_rows := 4,
                     tables_max_cols := 5 }⟩ := by decide

/-! ## Claim C6: termination of the style-chain walk -/

theorem filter_length_le {α : Type} (l : List α) (p q : α → Bool)
    (h : ∀ x, q x = true → p x = true) :
    (l.filter q).length ≤ (l.filter p).length := by
  induction l with
  | nil => simp
  | cons a as ih =>
    by_cases hq : q a = true
    · simp [List.filter_cons, hq, h a hq, Nat.succ_le_succ ih]
    · have hq' : q a = false := by revert hq; cases q a <;> simp
      cases hp : p a <;>
        simp [List.filter_cons, hq', hp] <;> omega

theorem filter_length_lt {α : Type} (l : List α) (p q : α → Bool) (a : α)
    (h : ∀ x, q x = true → p x = true) (ha : a ∈ l)
    (hpa : p a = true) (hqa : q a = false) :
    (l.filter q).length < (l.filter p).length := by
  induction l with
  | nil => cases ha
  | cons b bs ih =>
    rcases List.mem_cons.1 ha with rfl | hmem
    · have hle := filter_length_le bs p q h
      simp [List.filter_cons, hpa, hqa]
      omega
    · by_cases hqb : q b = true
      · simp [List.filter_cons, hqb, h b hqb, ih hmem]
      · have hq' : q b = false := by revert hqb; cases q b <;> simp
        have hlt := ih hmem
        cases hpb : p b <;> simp [List.filter_cons, hq', hpb] <;> omega

theorem dictGet_mem {κ α : Type} [DecidableEq κ] {m : List (κ × α)} {k : κ}
    {v : α} (h : dictGet m k = some v) : (k, v) ∈ m := by
  unfold dictGet at h
  cases hf : m.find? (fun p => p.1 = k) with
  | none => rw [hf] at h; cases h
  | some pr =>
    rw [hf] at h
    have hmem := List.mem_of_find?_eq_some hf
    have hp := List.find?_some hf
    have hk : pr.1 = k := by simpa using hp
    cases h
    have : pr = (k, pr.2) := by
      cases pr; simp at hk ⊢; exact hk
    rw [this] at hmem; exact hmem

theorem unvisited_lt (m : StyleMap) (v : List (Option String))
    (sid : Option String) (hmem : sid ∈ m.map Prod.fst) (hnv : sid ∉ v) :
    unvisitedCount m (sid :: v) < unvisitedCount m v := by
  apply filter_length_lt (m.map Prod.fst)
      (fun k => decide (k ∉ v)) (fun k => decide (k ∉ sid :: v)) sid
  · intro x hx
    simp only [decide_eq_true_iff] at hx ⊢
    exact fun hxv => hx (List.mem_cons_of_mem _ hxv)
  · exact hmem
  · simpa using hnv
  · simp

theorem get_heading_level_fuel_stable :
    ∀ (f1 : Nat) (m : StyleMap) (f2 : Nat) (sid : Option String)
      (v : List (Option String)),
      unvisitedCount m v < f1 → unvisitedCount m v < f2 →
      get_heading_level_fuel m f1 sid v = get_heading_level_fuel m f2 sid v := by
  intro f1
  induction f1 with
  | zero => intro m f2 sid v h1 _; exact absurd h1 (Nat.not_lt_zero _)
  | succ f1 ih =>
    intro m f2 sid v h1 h2
    match f2 with
    | 0 => exact absurd h2 (Nat.not_lt_zero _)
    | f2 + 1 =>
      show get_heading_level_fuel m (f1 + 1) sid v =
        get_heading_level_fuel m (f2 + 1) sid v
      rw [get_heading_level_fuel, get_heading_level_fuel]
      by_cases hc : sid ∈ v
      · simp [hc]
      · simp only [hc, if_false]
        cases hg : dictGet m sid with
        | none => rfl
        | some info =>
          cases hh : info.heading_level with
          | some l => simp [hh]
          | none =>
            cases hb0 : info.based_on with
            | none => simp [hh, hb0]
            | some b =>
              by_cases hb : b = ""
              · simp [hh, hb0, hb]
              · simp only [hh, hb0, ne_eq, hb, not_false_iff, if_true]
                have hkey : sid ∈ m.map Prod.fst := by
                  have := dictGet_mem hg
                  exact List.mem_map.2 ⟨(sid, info), this, rfl⟩
                have hlt := unvisited_lt m v sid hkey hc
                exact ih m f2 (some b) (sid :: v)
                  (Nat.lt_of_lt_of_le hlt (Nat.lt_succ_iff.1 h1))
                  (Nat.lt_of_lt_of_le hlt (Nat.lt_succ_iff.1 h2))

theorem get_heading_level_fuel_none_of_all_none :
    ∀ (f : Nat) (m : StyleMap) (sid : Option String)
      (v : List (Option String)),
      (∀ p ∈ m, p.2.heading_level = none) →
      get_heading_level_fuel m f sid v = none := by
  intro f
  induction f with
  | zero => intro m sid v _; rfl
  | succ f ih =>
    intro m sid v h
    rw [get_heading_level_fuel]
    by_cases hc : sid ∈ v
    · simp [hc]
    · simp only [hc, if_false]
      cases hg : dictGet m sid with
      | none => rfl
      | some info =>
        have hnone : info.heading_level = none := h (sid, info) (dictGet_mem hg)
        cases hb0 : info.based_on with
        | none => simp [hnone, hb0]
        | some b =>
          by_cases hb : b = ""
          · simp [hnone, hb0, hb]
          · simp only [hnone, hb0, ne_eq, hb, not_false_iff, if_true]
            exact ih m (some b) (sid :: v) h

theorem unvisitedCount_le_length (m : StyleMap) :
    unvisitedCount m [] ≤ m.length := by
  unfold unvisitedCount
  calc ((m.map Prod.fst).filter _).length
      ≤ (m.map Prod.fst).length := List.length_filter_le _ _
    _ = m.length := List.length_map _ _

/-- C6: for every style catalog — including one whose `based_on` chain
contains a cycle or references a missing parent — the resolver walk
terminates for every entry point: its result is independent of the fuel
bound as soon as the bound exceeds the catalog size (so the visited-set
recursion stops on its own), and over a catalog in which no style carries a
direct heading level (in particular on any cycle or chain into a missing
ancestor) every entry resolves to no heading level instead of looping or
erroring. -/
theorem style_chain_resolution (m : StyleMap) (sid : Option String)
    (fuel : Nat) (hfuel : m.length < fuel) :
    (get_heading_level_fuel m fuel sid [] = get_heading_level m sid) ∧
    ((∀ p ∈ m, p.2.heading_level = none) → get_heading_level m sid = none) := by
  constructor
  · apply get_heading_level_fuel_stable
    · exact Nat.lt_of_le_of_lt (unvisitedCount_le_length m) hfuel
    · exact Nat.lt_succ_of_le (unvisitedCount_le_length m)
  · intro h
    exact get_heading_level_fuel_none_of_all_none _ _ _ _ h

/-- C6 (witness): on the concrete cyclic catalog `A ↔ B` with `C` pointing
at a missing style, the walk from `A` and from `C` returns, fuel-independent,
with no heading level. -/
theorem style_chain_resolution_witness :
    (get_heading_level_fuel exCyclicStyles 9 (some "A") [] =
      get_heading_level exCyclicStyles (some "A")) ∧
    get_heading_level exCyclicStyles (some "A") = none ∧
    get_heading_level exCyclicStyles (some "C") = none := by
  have h1 := style_chain_resolution exCyclicStyles (some "A") 9 (by decide)
  have h2 := style_chain_resolution exCyclicStyles (some "C") 9 (by decide)
  exact ⟨h1.1, h1.2 (by decide), h2.2 (by decide)⟩

/-! ## Claim C7: missing main document resource -/

/-- C7: a valid zip without `word/document.xml` yields an empty block
sequence and exactly the one warning identifying the missing document,
distinct from the warning of the unopenable-archive path. -/
theorem missing_document_resource (entries : List (String × EntryData))
    (v pb : Bool) (h : lookupEntry entries "word/document.xml" = none) :
    parse_docx (.zip entries) v pb = .ok
      ⟨[], { stats0 with
        warnings := ["No word/document.xml found - invalid DOCX"] }⟩ ∧
    parse_docx .badZip v pb = .ok
      ⟨[], { stats0 with warnings := ["Invalid ZIP file structure"] }⟩ ∧
    ("No word/document.xml found - invalid DOCX" : String) ≠
      "Invalid ZIP file structure" := by
  refine ⟨?_, rfl, by decide⟩
  simp [parse_docx, prePhase, h]

/-- C7 (witness): the empty archive. -/
theorem missing_document_resource_witness :
    parse_docx (.zip []) false false = .ok
      ⟨[], { stats0 with
        warnings := ["No word/document.xml found - invalid DOCX"] }⟩ ∧
    parse_docx .badZip false false = .ok
      ⟨[], { stats0 with warnings := ["Invalid ZIP file structure"] }⟩ ∧
    ("No word/document.xml found - invalid DOCX" : String) ≠
      "Invalid ZIP file structure" :=
  missing_document_resource [] false false rfl

/-! ## Claim C9: title/subtitle flags are not inherited along `based_on` -/

theorem mem_dictInsert {κ α : Type} [DecidableEq κ] :
    ∀ (m : List (κ × α)) (k : κ) (v : α) (p : κ × α),
      p ∈ dictInsert m k v → p ∈ m ∨ p = (k, v) := by
  intro m k v
  induction m with
  | nil => intro p hp; simp [dictInsert] at hp; right; exact hp
  | cons q rest ih =>
    obtain ⟨qk, qv⟩ := q
    intro p hp
    simp only [dictInsert] at hp
    by_cases hk : qk = k
    · simp only [hk, if_true] at hp
      rcases List.mem_cons.1 hp with rfl | hmem
      · right; rfl
      · left; exact List.mem_cons_of_mem _ hmem
    · simp only [hk, if_false] at hp
      rcases List.mem_cons.1 hp with rfl | hmem
      · left; exact List.mem_cons_self _ _
      · rcases ih p hmem with h | h
        · left; exact List.mem_cons_of_mem _ h
        · right; exact h

theorem foldl_pairs_preserve {κ α β : Type} (P : κ × α → Prop)
    (step : List (κ × α) → β → List (κ × α))
    (hstep : ∀ acc b, (∀ p ∈ acc, P p) → ∀ p ∈ step acc b, P p) :
    ∀ (l : List β) (acc : List (κ × α)),
      (∀ p ∈ acc, P p) → ∀ p ∈ l.foldl step acc, P p := by
  intro l
  induction l with
  | nil => intro acc hacc; exact hacc
  | cons b bs ih => intro acc hacc; exact ih (step acc b) (hstep acc b hacc)

theorem stylesFirstPass_flags (root : Elem) :
    ∀ p ∈ stylesFirstPass root, p.2.is_title = false ∧ p.2.is_subtitle = false := by
  unfold stylesFirstPass
  apply foldl_pairs_preserve
      (fun p : Option String × StyleRec =>
        p.2.is_title = false ∧ p.2.is_subtitle = false)
      stylesFirstPassStep
  · intro acc style hacc p hp
    unfold stylesFirstPassStep at hp
    by_cases hty : (style.get "type" == some "paragraph") = true
    · simp only [hty, if_true] at hp
      rcases mem_dictInsert _ _ _ _ hp with h | h
      · exact hacc p h
      · rw [h]; exact ⟨rfl, rfl⟩
    · simp only [hty, if_false] at hp
      exact hacc p hp
  · intro p hp; cases hp

theorem detectPass_flags :
    ∀ (l l' : StyleMap), detectPass l = .ok l' →
      ∀ p ∈ l', ∃ r, (p.1, r) ∈ l ∧
        (p.2.is_title = true → r.is_title = true ∨
          ∃ nm, p.2.name = some nm ∧ normNameData nm = "title".data) ∧
        (p.2.is_subtitle = true → r.is_subtitle = true ∨
          ∃ nm, p.2.name = some nm ∧ normNameData nm = "subtitle".data) := by
  intro l
  induction l with
  | nil =>
    intro l' h p hp
    cases h; cases hp
  | cons q rest ih =>
    obtain ⟨qk, qr⟩ := q
    intro l' h p hp
    rw [detectPass] at h
    cases hd : detectRecord qr with
    | error e => rw [hd] at h; cases h
    | ok r' =>
      rw [hd] at h
      cases hr : detectPass rest with
      | error e => rw [hr] at h; cases h
      | ok rest' =>
        rw [hr] at h
        simp only [Except.ok.injEq] at h
        rw [← h] at hp
        rcases List.mem_cons.1 hp with rfl | hmem
        · -- the head entry: analyze the detection of its record
          refine ⟨qr, List.mem_cons_self _ _, ?_⟩
          unfold detectRecord at hd
          cases hn : qr.name with
          | none => rw [hn] at hd; cases hd
          | some nm =>
            rw [hn] at hd
            simp only at hd
            by_cases ht : normNameData nm = "title".data
            · rw [if_pos ht] at hd
              cases hd
              exact ⟨fun _ => .inr ⟨nm, rfl, ht⟩,
                fun hs => .inl (by simpa using hs)⟩
            · rw [if_neg ht] at hd
              by_cases hs : normNameData nm = "subtitle".data
              · rw [if_pos hs] at hd
                cases hd
                exact ⟨fun h1 => .inl (by simpa using h1),
                  fun _ => .inr ⟨nm, rfl, hs⟩⟩
              · rw [if_neg hs] at hd
                by_cases hh : "heading".data.isPrefixOf (normNameData nm) ∧
                    pyIsDigits ((normNameData nm).drop 7)
                · rw [if_pos hh] at hd
                  cases hd
                  exact ⟨fun h1 => .inl (by simpa using h1),
                    fun h1 => .inl (by simpa using h1)⟩
                · rw [if_neg hh] at hd
                  cases hd
                  exact ⟨fun h1 => .inl h1, fun h1 => .inl h1⟩
        · rcases ih rest' hr p hmem with ⟨r, hrmem, h1, h2⟩
          exact ⟨r, List.mem_cons_of_mem _ hrmem, h1, h2⟩

theorem resolveStep_cases (acc : StyleMap) (sid : Option String) :
    resolveStep acc sid = acc ∨
    ∃ info l, dictGet acc sid = some info ∧
      resolveStep acc sid =
        dictInsert acc sid { info with heading_level := some l } := by
  unfold resolveStep
  cases hg : dictGet acc sid with
  | none => left; rfl
  | some info =>
    cases hl : info.heading_level with
    | some l => left; simp [hl]
    | none =>
      cases hw : get_heading_level acc sid with
      | none => left; simp [hl, hw]
      | some l => right; exact ⟨info, l, rfl, by simp [hl, hw]⟩

theorem resolvePass_preserve (m : StyleMap) :
    ∀ p ∈ resolvePass m, ∃ r, (p.1, r) ∈ m ∧ p.2.name = r.name ∧
      p.2.is_title = r.is_title ∧ p.2.is_subtitle = r.is_subtitle := by
  unfold resolvePass
  apply foldl_pairs_preserve
      (fun p : Option String × StyleRec =>
        ∃ r, (p.1, r) ∈ m ∧ p.2.name = r.name ∧
          p.2.is_title = r.is_title ∧ p.2.is_subtitle = r.is_subtitle)
      resolveStep
  · intro acc sid hacc p hp
    rcases resolveStep_cases acc sid with heq | ⟨info, l, hg, heq⟩
    · rw [heq] at hp; exact hacc p hp
    · rw [heq] at hp
      rcases mem_dictInsert _ _ _ _ hp with h | h
      · exact hacc p h
      · rcases hacc (sid, info) (dictGet_mem hg) with ⟨r, hrmem, hname, h1, h2⟩
        rw [h]
        exact ⟨r, hrmem, hname, h1, h2⟩
  · intro p hp
    exact ⟨p.2, by simpa using hp, rfl, rfl, rfl⟩

/-- C9: the title (subtitle) flag is never inherited along a `based_on`
chain — any style whose resolved record carries the flag bears the
normalised name `title` (`subtitle`) itself — while the resolved heading
level 0 is inherited, so a paragraph styled with a non-title style based on
`Title` is emitted as a `Heading` block of level 0 and counted under the
`level_0` counter (concrete pipeline run in the second conjunct). -/
theorem title_flag_not_inherited (root : Elem) (m : StyleMap)
    (hp : parse_styles_root root = .ok m) :
    (∀ p ∈ m,
      (p.2.is_title = true →
        ∃ nm, p.2.name = some nm ∧ normNameData nm = "title".data) ∧
      (p.2.is_subtitle = true →
        ∃ nm, p.2.name = some nm ∧ normNameData nm = "subtitle".data)) ∧
    parse_docx exArchiveTitleChain false false = .ok
      ⟨[.heading 0 "X"], { stats0 with headings := [("level_0", 1)] }⟩ := by
  refine ⟨?_, by decide⟩
  intro p hpm
  unfold parse_styles_root at hp
  cases hd : detectPass (stylesFirstPass root) with
  | error e => rw [hd] at hp; cases hp
  | ok m1 =>
    rw [hd] at hp
    simp only [Except.ok.injEq] at hp
    rw [← hp] at hpm
    rcases resolvePass_preserve m1 p hpm with ⟨r1, hr1, hname, hti, hsi⟩
    rcases detectPass_flags _ _ hd (p.1, r1) hr1 with ⟨r0, hr0, h1, h2⟩
    have hflags := stylesFirstPass_flags root (p.1, r0) hr0
    constructor
    · intro ht
      rcases h1 (by rw [← hti, ht]) with hbad | ⟨nm, hnm, hnorm⟩
      · rw [hflags.1] at hbad; cases hbad
      · exact ⟨nm, by rw [hname]; exact hnm, hnorm⟩
    · intro hs
      rcases h2 (by rw [← hsi, hs]) with hbad | ⟨nm, hnm, hnorm⟩
      · rw [hflags.2] at hbad; cases hbad
      · exact ⟨nm, by rw [hname]; exact hnm, hnorm⟩

/-- C9 (witness): the resolved map of the concrete `Title`-chain catalog,
with its flagged entry, and the concrete pipeline output. -/
theorem title_flag_not_inherited_witness :
    (∃ nm, (⟨some "Title", none, some 0, true, false⟩ : StyleRec).name = some nm ∧
      normNameData nm = "title".data) ∧
    parse_docx exArchiveTitleChain false false = .ok
      ⟨[.heading 0 "X"], { stats0 with headings := [("level_0", 1)] }⟩ := by
  have h := title_flag_not_inherited exStylesTitleChain
    [(some "T", ⟨some "Title", none, some 0, true, false⟩),
     (some "Cust", ⟨some "MyStyle", some "T", some 0, false, false⟩)]
    (by decide)
  exact ⟨(h.1 (some "T", ⟨some "Title", none, some 0, true, false⟩)
    (by decide)).1 rfl, h.2⟩

/-! ## Claim C1: the propagation policy -/

/-- C1 (code-bug evaluation): a well-formed styles catalog containing a
paragraph style whose `w:name` element has no `w:val` makes `parse_styles`
evaluate `None.lower()`; the resulting `AttributeError` is not caught by
`parse_docx` (which only catches `ET.ParseError` there), so the entry point
raises instead of warning.  By contrast the documented failure modes do
degrade to warnings: an unopenable archive and a styles catalog that is
present but malformed markup both return empty results with one warning. -/
theorem parse_docx_raises_on_degenerate_style_name :
    parse_docx exArchiveStylesCrash false false = .error .attributeError ∧
    parse_docx .badZip false false = .ok
      ⟨[], { stats0 with warnings := ["Invalid ZIP file structure"] }⟩ ∧
    parse_docx exArchiveMalformedStyles false false = .ok
      ⟨[], { stats0 with
        warnings := ["Malformed styles.xml: syntax error: line 1, column 0"] }⟩ := by
  decide

/-! ## Claim C2: break accounting -/

theorem countP_replicate_self {α : Type} (n : Nat) (x : α) (p : α → Bool) :
    (List.replicate n x).countP p = if p x then n else 0 := by
  induction n with
  | zero => simp
  | succ k ih => rw [List.replicate_succ, List.countP_cons, ih]; split <;> omega

theorem countBreakBlocks_append (a b : List Block) :
    countBreakBlocks (a ++ b) = countBreakBlocks a + countBreakBlocks b :=
  List.countP_append _ _ _

theorem countBreakBlocks_single (b : Block) (h : isBreakBlock b = false) :
    countBreakBlocks [b] = 0 := by
  simp [countBreakBlocks, List.countP_cons, h]

theorem countBreakBlocks_nil : countBreakBlocks [] = 0 := rfl

theorem countBreakBlocks_replicate (n : Nat) :
    countBreakBlocks (List.replicate n Block.pageBreak) = n := by
  rw [countBreakBlocks, countP_replicate_self]
  simp [isBreakBlock]

theorem flushList_accounting (st : LoopState) :
    countBreakBlocks (flushList st).blocks = countBreakBlocks st.blocks ∧
    (flushList st).stats.dropped_breaks = st.stats.dropped_breaks ∧
    (flushList st).stats.warnings = st.stats.warnings := by
  unfold flushList
  cases st.current_list with
  | none => exact ⟨rfl, rfl, rfl⟩
  | some pr =>
    obtain ⟨ord, items⟩ := pr
    refine ⟨?_, ?_, ?_⟩
    · show countBreakBlocks (st.blocks ++ [Block.list ord items]) = _
      rw [countBreakBlocks_append,
        countBreakBlocks_single (Block.list ord items) rfl]
      omega
    · cases ord <;> rfl
    · cases ord <;> rfl

theorem breakHandle_accounting (pb : Bool) (st : LoopState) (n : Nat) :
    countBreakBlocks (breakHandle pb st n).blocks =
      countBreakBlocks st.blocks + (if pb then n else 0) ∧
    (breakHandle pb st n).stats.dropped_breaks =
      st.stats.dropped_breaks + (if pb then 0 else n) ∧
    (breakHandle pb st n).stats.warnings = st.stats.warnings := by
  unfold breakHandle
  by_cases hn : n > 0
  · rw [if_pos hn]
    cases pb with
    | true =>
      obtain ⟨h1, h2, h3⟩ := flushList_accounting st
      refine ⟨?_, by simpa using h2, by simpa using h3⟩
      show countBreakBlocks ((flushList st).blocks ++ _) = _
      rw [countBreakBlocks_append, h1, countBreakBlocks_replicate]
      simp
    | false => exact ⟨by simp, by simp, rfl⟩
  · rw [if_neg hn]
    have hn0 : n = 0 := by omega
    subst hn0
    exact ⟨by cases pb <;> simp, by cases pb <;> simp, rfl⟩

theorem listStep_accounting (st : LoopState) (li : ListInfo) (text : String) :
    countBreakBlocks (listStep st li text).blocks = countBreakBlocks st.blocks ∧
    (listStep st li text).stats.dropped_breaks = st.stats.dropped_breaks ∧
    (listStep st li text).stats.warnings = st.stats.warnings := by
  unfold listStep
  obtain ⟨h1, h2, h3⟩ := flushList_accounting st
  by_cases hid : st.current_list_identity ≠ some (li.num_id, li.is_ordered)
  · rw [if_pos hid]
    exact ⟨by simpa using h1, by simpa using h2, by simpa using h3⟩
  · rw [if_neg hid]
    cases st.current_list with
    | none => exact ⟨rfl, rfl, rfl⟩
    | some pr => obtain ⟨ord, items⟩ := pr; exact ⟨rfl, rfl, rfl⟩

theorem classifyStep_accounting (si : StyleMap) (st : LoopState) (para : Elem)
    (text : String) :
    countBreakBlocks (classifyStep si st para text).blocks =
      countBreakBlocks st.blocks ∧
    (classifyStep si st para text).stats.dropped_breaks =
      st.stats.dropped_breaks ∧
    (classifyStep si st para text).stats.warnings = st.stats.warnings := by
  unfold classifyStep
  obtain ⟨h1, h2, h3⟩ := flushList_accounting st
  cases hps : paraStyleResolved si para with
  | none =>
    dsimp only
    refine ⟨?_, by simpa using h2, by simpa using h3⟩
    by_cases hk : pyStripTruthy text = true
    · rw [if_pos hk, countBreakBlocks_append, h1,
        countBreakBlocks_single (Block.paragraph text) rfl]
      omega
    · rw [if_neg hk]
      exact h1
  | some tr =>
    obtain ⟨l, is_t, is_s⟩ := tr
    dsimp only
    cases is_t with
    | true =>
      refine ⟨?_, by simp [bumpHeading, h2], by simp [bumpHeading, h3]⟩
      rw [if_pos rfl, countBreakBlocks_append, h1,
        countBreakBlocks_single (Block.title text) rfl]
      omega
    | false =>
      cases is_s with
      | true =>
        refine ⟨?_, by simp [bumpHeading, h2], by simp [bumpHeading, h3]⟩
        simp only [Bool.false_eq_true, if_false, if_true]
        rw [countBreakBlocks_append, h1,
          countBreakBlocks_single (Block.subtitle text) rfl]
        omega
      | false =>
        refine ⟨?_, by simp [bumpHeading, h2], by simp [bumpHeading, h3]⟩
        simp only [Bool.false_eq_true, if_false]
        rw [countBreakBlocks_append, h1,
          countBreakBlocks_single (Block.heading l text) rfl]
        omega

theorem tableStep_accounting (st : LoopState) (tbl : Elem) :
    countBreakBlocks (tableStep st tbl).blocks = countBreakBlocks st.blocks ∧
    (tableStep st tbl).stats.dropped_breaks = st.stats.dropped_breaks ∧
    (tableStep st tbl).stats.warnings = st.stats.warnings := by
  unfold tableStep
  obtain ⟨h1, h2, h3⟩ := flushList_accounting st
  refine ⟨?_, ?_, ?_⟩
  · show countBreakBlocks ((flushList st).blocks ++ _) = _
    rw [countBreakBlocks_append, h1,
      countBreakBlocks_single (Block.table (parse_table tbl)) rfl]
    omega
  · show (if parse_table tbl ≠ [] then _ else _ : Stats).dropped_breaks = _
    split <;> simpa using h2
  · show (if parse_table tbl ≠ [] then _ else _ : Stats).warnings = _
    split <;> simpa using h3

theorem sectPrStep_accounting (pb : Bool) (st : LoopState) :
    countBreakBlocks (sectPrStep pb st).blocks =
      countBreakBlocks st.blocks + (if pb then 1 else 0) ∧
    (sectPrStep pb st).stats.dropped_breaks =
      st.stats.dropped_breaks + (if pb then 0 else 1) ∧
    (sectPrStep pb st).stats.warnings = st.stats.warnings := by
  unfold sectPrStep
  cases pb with
  | true =>
    obtain ⟨h1, h2, h3⟩ := flushList_accounting st
    refine ⟨?_, by simpa using h2, by simpa using h3⟩
    show countBreakBlocks ((flushList st).blocks ++ _) = _
    rw [countBreakBlocks_append, h1]
    simp [countBreakBlocks, List.countP_cons, isBreakBlock]
  | false => exact ⟨by simp, by simp, rfl⟩

theorem processChild_accounting (pb : Bool) (si : StyleMap) (ni : NumberingInfo)
    (st : LoopState) (e : Elem) (st' : LoopState)
    (h : processChild pb si ni st e = .ok st') :
    countBreakBlocks st'.blocks =
      countBreakBlocks st.blocks + (if pb then childBreaks e else 0) ∧
    st'.stats.dropped_breaks =
      st.stats.dropped_breaks + (if pb then 0 else childBreaks e) ∧
    st'.stats.warnings = st.stats.warnings := by
  unfold processChild at h
  unfold childBreaks
  by_cases hp : (e.tag == "p") = true
  · rw [if_pos hp] at h
    rw [if_pos hp]
    cases hli : get_list_info e ni with
    | error err => rw [hli] at h; cases h
    | ok li =>
      rw [hli] at h
      cases li with
      | some info =>
        simp only at h
        cases h
        obtain ⟨b1, b2, b3⟩ :=
          breakHandle_accounting pb st (count_breaks_in_paragraph e)
        obtain ⟨l1, l2, l3⟩ := listStep_accounting
          (breakHandle pb st (count_breaks_in_paragraph e)) info (get_text e)
        exact ⟨by rw [l1, b1], by rw [l2, b2], by rw [l3, b3]⟩
      | none =>
        simp only at h
        cases h
        obtain ⟨b1, b2, b3⟩ :=
          breakHandle_accounting pb st (count_breaks_in_paragraph e)
        obtain ⟨c1, c2, c3⟩ := classifyStep_accounting si
          (breakHandle pb st (count_breaks_in_paragraph e)) e (get_text e)
        exact ⟨by rw [c1, b1], by rw [c2, b2], by rw [c3, b3]⟩
  · rw [if_neg hp] at h
    rw [if_neg hp]
    by_cases htb : (e.tag == "tbl") = true
    · rw [if_pos htb] at h
      rw [if_pos htb]
      cases h
      obtain ⟨t1, t2, t3⟩ := tableStep_accounting st e
      exact ⟨by rw [t1]; cases pb <;> simp, by rw [t2]; cases pb <;> simp, t3⟩
    · rw [if_neg htb] at h
      rw [if_neg htb]
      by_cases hsp : (e.tag == "sectPr") = true
      · rw [if_pos hsp] at h
        rw [if_pos hsp]
        cases h
        exact sectPrStep_accounting pb st
      · rw [if_neg hsp] at h
        rw [if_neg hsp]
        cases h
        exact ⟨by cases pb <;> simp, by cases pb <;> simp, rfl⟩

theorem processChildren_accounting (pb : Bool) (si : StyleMap)
    (ni : NumberingInfo) :
    ∀ (cs : List Elem) (st st' : LoopState),
      processChildren pb si ni st cs = .ok st' →
      countBreakBlocks st'.blocks =
        countBreakBlocks st.blocks + (if pb then totalBreaks cs else 0) ∧
      st'.stats.dropped_breaks =
        st.stats.dropped_breaks + (if pb then 0 else totalBreaks cs) ∧
      st'.stats.warnings = st.stats.warnings := by
  intro cs
  induction cs with
  | nil =>
    intro st st' h
    cases h
    exact ⟨by cases pb <;> simp [totalBreaks], by cases pb <;> simp [totalBreaks],
      rfl⟩
  | cons c rest ih =>
    intro st st' h
    rw [processChildren] at h
    cases hc : processChild pb si ni st c with
    | error e => rw [hc] at h; cases h
    | ok st1 =>
      rw [hc] at h
      obtain ⟨a1, a2, a3⟩ := processChild_accounting pb si ni st c st1 hc
      obtain ⟨r1, r2, r3⟩ := ih st1 st' h
      have htot : totalBreaks (c :: rest) = childBreaks c + totalBreaks rest := by
        simp [totalBreaks]
      refine ⟨?_, ?_, by rw [r3, a3]⟩
      · rw [r1, a1, htot]; cases pb <;> simp +arith
      · rw [r2, a2, htot]; cases pb <;> simp +arith

theorem append_ne_of_head (p e t : String) (c d : Char)
    (hp : p.data.head? = some c) (ht : t.data.head? = some d) (hcd : c ≠ d) :
    p ++ e ≠ t := by
  intro h
  rw [← h, String.data_append] at ht
  cases hpd : p.data with
  | nil => rw [hpd] at hp; cases hp
  | cons a tl =>
    rw [hpd] at hp ht
    simp only [List.head?_cons, List.cons_append, Option.some.injEq] at hp ht
    subst hp
    exact hcd ht

theorem droppedWarning_head (M : Nat) :
    (droppedWarning M).data.head? = some 'D' := by
  unfold droppedWarning
  rw [String.data_append]
  rfl

theorem readOptional_snd (entries : List (String × EntryData)) (name pre : String) :
    (readOptional entries name pre).2 = [] ∨
    ∃ e, (readOptional entries name pre).2 = [pre ++ e] := by
  unfold readOptional
  cases lookupEntry entries name with
  | none => left; rfl
  | some ed =>
    cases ed with
    | good x => left; rfl
    | readError e => right; exact ⟨e, rfl⟩

theorem stylesStage_ok_snd (src : Option XmlSource) (si : StyleMap)
    (sw : List String) (h : stylesStage src = .ok (si, sw)) :
    sw = [] ∨ ∃ e, sw = ["Malformed styles.xml: " ++ e] := by
  unfold stylesStage at h
  cases src with
  | none => cases h; left; rfl
  | some x =>
    cases x with
    | malformed e => cases h; right; exact ⟨e, rfl⟩
    | wf root =>
      simp only at h
      cases hps : parse_styles_root root with
      | error e => rw [hps] at h; cases h
      | ok m => rw [hps] at h; cases h; left; rfl

theorem numberingStage_snd (src : Option XmlSource) :
    (numberingStage src).2 = [] ∨
    ∃ e, (numberingStage src).2 = ["Malformed numbering.xml: " ++ e] := by
  unfold numberingStage
  cases src with
  | none => left; rfl
  | some x =>
    cases x with
    | malformed e => right; exact ⟨e, rfl⟩
    | wf root => left; rfl

/-- The warnings carried into the body loop are exactly the four optional
resource warnings, in order. -/
theorem prePhase_run_ws (a : Archive) (ws : List String) (si : StyleMap)
    (ni : NumberingInfo) (body : Elem) (h : prePhase a = .run ws si ni body) :
    ∃ w1 w2 w3 w4, ws = w1 ++ w2 ++ w3 ++ w4 ∧
      (w1 = [] ∨ ∃ e, w1 = ["Error reading styles.xml: " ++ e]) ∧
      (w2 = [] ∨ ∃ e, w2 = ["Error reading numbering.xml: " ++ e]) ∧
      (w3 = [] ∨ ∃ e, w3 = ["Malformed styles.xml: " ++ e]) ∧
      (w4 = [] ∨ ∃ e, w4 = ["Malformed numbering.xml: " ++ e]) := by
  cases a with
  | badZip => simp [prePhase] at h
  | fileNotFound => simp [prePhase] at h
  | zip entries =>
    rw [prePhase] at h
    cases hlk : lookupEntry entries "word/document.xml" with
    | none => rw [hlk] at h; simp at h
    | some ed =>
      rw [hlk] at h
      cases ed with
      | readError e => simp at h
      | good docSrc =>
        simp only at h
        cases hro1 : readOptional entries "word/styles.xml"
            "Error reading styles.xml: " with
        | mk ssrc w1 =>
          rw [hro1] at h
          simp only at h
          cases hro2 : readOptional entries "word/numbering.xml"
              "Error reading numbering.xml: " with
          | mk nsrc w2 =>
            rw [hro2] at h
            simp only at h
            cases hss : stylesStage ssrc with
            | error e => rw [hss] at h; simp at h
            | ok pr =>
              obtain ⟨si2, w3⟩ := pr
              rw [hss] at h
              simp only at h
              cases hns : numberingStage nsrc with
              | mk ni2 w4 =>
                rw [hns] at h
                simp only at h
                cases docSrc with
                | malformed e => simp at h
                | wf root =>
                  simp only at h
                  cases hfd : root.findDesc "body" with
                  | none => rw [hfd] at h; simp at h
                  | some b =>
                    rw [hfd] at h
                    simp only [PrePhase.run.injEq] at h
                    obtain ⟨hws, -, -, -⟩ := h
                    refine ⟨w1, w2, w3, w4, hws.symm, ?_, ?_, ?_, ?_⟩
                    · have := readOptional_snd entries "word/styles.xml"
                        "Error reading styles.xml: "
                      rw [hro1] at this; exact this
                    · have := readOptional_snd entries "word/numbering.xml"
                        "Error reading numbering.xml: "
                      rw [hro2] at this; exact this
                    · exact stylesStage_ok_snd ssrc si2 w3 hss
                    · have := numberingStage_snd nsrc
                      rw [hns] at this; exact this

/-- No pre-loop warning is a dropped-breaks warning (they all start with an
`E` or an `M`, the dropped-breaks warning with a `D`). -/
theorem prePhase_run_not_dropped (a : Archive) (ws : List String)
    (si : StyleMap) (ni : NumberingInfo) (body : Elem)
    (h : prePhase a = .run ws si ni body) (M : Nat) :
    droppedWarning M ∉ ws := by
  obtain ⟨w1, w2, w3, w4, hws, h1, h2, h3, h4⟩ := prePhase_run_ws a ws si ni body h
  subst hws
  intro hmem
  simp only [List.mem_append] at hmem
  have hone : ∀ (pre : List String) (p : String),
      (pre = [] ∨ ∃ e, pre = [p ++ e]) → p.data.head? = some 'E' ∨
        p.data.head? = some 'M' → droppedWarning M ∉ pre := by
    intro pre p hpre hhead hmem2
    rcases hpre with rfl | ⟨e, rfl⟩
    · cases hmem2
    · have heq := (List.mem_singleton.1 hmem2).symm
      rcases hhead with hh | hh
      · exact append_ne_of_head p e (droppedWarning M) 'E' 'D' hh
          (droppedWarning_head M) (by decide) heq
      · exact append_ne_of_head p e (droppedWarning M) 'M' 'D' hh
          (droppedWarning_head M) (by decide) heq
  rcases hmem with ((hm | hm) | hm) | hm
  · exact hone w1 "Error reading styles.xml: " h1 (.inl rfl) hm
  · exact hone w2 "Error reading numbering.xml: " h2 (.inl rfl) hm
  · exact hone w3 "Malformed styles.xml: " h3 (.inr rfl) hm
  · exact hone w4 "Malformed numbering.xml: " h4 (.inr rfl) hm

/-- C2: with `N` the total of the page/section breaks the body loop counts
(page-type break markers inside body paragraphs plus body-level section
markers): break preservation off yields zero `Break` blocks, a
dropped-breaks count of `N` and, when `N > 0`, exactly one dropped-breaks
warning — citing exactly `N` — after the resource warnings (and none when
`N = 0`); break preservation on yields exactly `N` `Break` blocks, a
dropped-breaks count of zero and no dropped-breaks warning. -/
theorem break_accounting (a : Archive) (v : Bool) (ws : List String)
    (si : StyleMap) (ni : NumberingInfo) (body : Elem) (roff ron : ParseResult)
    (hpre : prePhase a = .run ws si ni body)
    (hoff : parse_docx a v false = .ok roff)
    (hon : parse_docx a v true = .ok ron) :
    (countBreakBlocks roff.blocks = 0 ∧
     roff.stats.dropped_breaks = totalBreaks body.children ∧
     (totalBreaks body.children > 0 →
       ∃ pre, roff.stats.warnings =
           pre ++ [droppedWarning (totalBreaks body.children)] ∧
         ∀ M, droppedWarning M ∉ pre) ∧
     (totalBreaks body.children = 0 →
       ∀ M, droppedWarning M ∉ roff.stats.warnings)) ∧
    (countBreakBlocks ron.blocks = totalBreaks body.children ∧
     ron.stats.dropped_breaks = 0 ∧
     ∀ M, droppedWarning M ∉ ron.stats.warnings) := by
  unfold parse_docx at hoff hon
  rw [hpre] at hoff hon
  simp only at hoff hon
  constructor
  · -- break preservation off
    cases hpo : processChildren false si ni
        ⟨[], { stats0 with warnings := ws }, none, none⟩ body.children with
    | error e => rw [hpo] at hoff; cases hoff
    | ok st =>
      rw [hpo] at hoff
      simp only [Except.ok.injEq] at hoff
      obtain ⟨c1, c2, c3⟩ := processChildren_accounting false si ni
        body.children _ st hpo
      obtain ⟨f1, f2, f3⟩ := flushList_accounting st
      have hcnt : countBreakBlocks (flushList st).blocks = 0 := by
        rw [f1, c1, countBreakBlocks_nil]; simp
      have hdrop : (flushList st).stats.dropped_breaks =
          totalBreaks body.children := by
        rw [f2, c2]; simp [stats0]
      have hwarn : (flushList st).stats.warnings = ws := by rw [f3, c3]
      by_cases hN : totalBreaks body.children > 0
      · have hcond : ((flushList st).stats.dropped_breaks > 0 ∧ ¬false = true) :=
          ⟨by rw [hdrop]; exact hN, by simp⟩
        rw [if_pos (by simpa using hcond)] at hoff
        rw [← hoff]
        refine ⟨hcnt, hdrop, fun _ => ⟨ws, ?_, ?_⟩, fun h0 => ?_⟩
        · simp only [hwarn, hdrop]
        · intro M; exact prePhase_run_not_dropped a ws si ni body hpre M
        · omega
      · have hN0 : totalBreaks body.children = 0 := by omega
        have hcond : ¬ ((flushList st).stats.dropped_breaks > 0 ∧ ¬false = true) := by
          rw [hdrop, hN0]; simp
        rw [if_neg (by simpa using hcond)] at hoff
        rw [← hoff]
        refine ⟨hcnt, hdrop, fun hgt => absurd hgt hN, fun _ M => ?_⟩
        rw [hwarn]
        exact prePhase_run_not_dropped a ws si ni body hpre M
  · -- break preservation on
    cases hpo : processChildren true si ni
        ⟨[], { stats0 with warnings := ws }, none, none⟩ body.children with
    | error e => rw [hpo] at hon; cases hon
    | ok st =>
      rw [hpo] at hon
      simp only [Except.ok.injEq] at hon
      obtain ⟨c1, c2, c3⟩ := processChildren_accounting true si ni
        body.children _ st hpo
      obtain ⟨f1, f2, f3⟩ := flushList_accounting st
      rw [if_neg (by simp)] at hon
      rw [← hon]
      refine ⟨?_, ?_, ?_⟩
      · rw [f1, c1, countBreakBlocks_nil]; simp
      · rw [f2, c2]; simp [stats0]
      · intro M
        rw [f3, c3]
        exact prePhase_run_not_dropped a ws si ni body hpre M

/-- C2 (witness): the two-break document, parsed both ways. -/
theorem break_accounting_witness :
    (countBreakBlocks exBreaksResOff.blocks = 0 ∧
     exBreaksResOff.stats.dropped_breaks = totalBreaks exBreaksBody.children ∧
     (totalBreaks exBreaksBody.children > 0 →
       ∃ pre, exBreaksResOff.stats.warnings =
           pre ++ [droppedWarning (totalBreaks exBreaksBody.children)] ∧
         ∀ M, droppedWarning M ∉ pre) ∧
     (totalBreaks exBreaksBody.children = 0 →
       ∀ M, droppedWarning M ∉ exBreaksResOff.stats.warnings)) ∧
    (countBreakBlocks exBreaksResOn.blocks = totalBreaks exBreaksBody.children ∧
     exBreaksResOn.stats.dropped_breaks = 0 ∧
     ∀ M, droppedWarning M ∉ exBreaksResOn.stats.warnings) :=
  break_accounting exArchiveBreaks false [] [] emptyNumbering exBreaksBody
    exBreaksResOff exBreaksResOn (by decide) (by decide) (by decide)

/-! ## Claim C3: list grouping -/

theorem flushList_none (st : LoopState) (h : st.current_list = none) :
    flushList st = st := by
  unfold flushList
  rw [h]

theorem flushList_closed (st : LoopState) (ord : Bool)
    (items : List (String × Int)) (h : st.current_list = some (ord, items)) :
    (flushList st).blocks = st.blocks ++ [.list ord items] ∧
    (flushList st).current_list = none ∧
    (flushList st).current_list_identity = none := by
  unfold flushList
  rw [h]
  exact ⟨rfl, rfl, rfl⟩

theorem breakHandle_no_preserve_eq (pb : Bool) (st : LoopState) (n : Nat)
    (h : pb = true → n = 0) :
    breakHandle pb st n = { st with stats :=
      { st.stats with dropped_breaks :=
          st.stats.dropped_breaks + (if pb = true then 0 else n) } } := by
  unfold breakHandle
  cases pb with
  | true =>
    have hn : n = 0 := h rfl
    subst hn
    simp
  | false =>
    by_cases hn : n > 0
    · rw [if_pos hn]
      simp
    · rw [if_neg hn]
      have hn0 : n = 0 := by omega
      subst hn0
      simp

theorem listStep_extend (st : LoopState) (li : ListInfo) (text : String)
    (acc : List (String × Int)) (h1 : st.current_list = some (li.is_ordered, acc))
    (h2 : st.current_list_identity = some (li.num_id, li.is_ordered)) :
    listStep st li text =
      { st with
        current_list := some (li.is_ordered, acc ++ [(text, li.ilvl)]) } := by
  unfold listStep
  rw [if_neg (by rw [h2]; simp), h1]

theorem listStep_open (st : LoopState) (li : ListInfo) (text : String)
    (h : st.current_list_identity ≠ some (li.num_id, li.is_ordered)) :
    listStep st li text =
      { flushList st with
        current_list := some (li.is_ordered, [(text, li.ilvl)])
        current_list_identity := some (li.num_id, li.is_ordered) } := by
  unfold listStep
  rw [if_pos h]

theorem processChild_p_list (pb : Bool) (si : StyleMap) (ni : NumberingInfo)
    (st : LoopState) (e : Elem) (li : ListInfo) (htag : e.tag = "p")
    (hli : get_list_info e ni = .ok (some li)) :
    processChild pb si ni st e = .ok
      (listStep (breakHandle pb st (count_breaks_in_paragraph e)) li
        (get_text e)) := by
  unfold processChild
  rw [if_pos (by rw [htag]; rfl), hli]

theorem processChild_p_nonlist (pb : Bool) (si : StyleMap) (ni : NumberingInfo)
    (st : LoopState) (e : Elem) (htag : e.tag = "p")
    (hli : get_list_info e ni = .ok none) :
    processChild pb si ni st e = .ok
      (classifyStep si (breakHandle pb st (count_breaks_in_paragraph e)) e
        (get_text e)) := by
  unfold processChild
  rw [if_pos (by rw [htag]; rfl), hli]

/-- Extending an open list: a run of same-identity, effectively break-free
list-item paragraphs only appends its items to the open list and
accumulates dropped breaks. -/
theorem processChildren_extend_run (pb : Bool) (si : StyleMap)
    (ni : NumberingInfo) (ident : Option String × Bool) :
    ∀ (pairs : List (Elem × ListInfo)) (st : LoopState)
      (acc : List (String × Int)),
      st.current_list = some (ident.2, acc) →
      st.current_list_identity = some ident →
      (∀ q ∈ pairs, q.1.tag = "p" ∧
        (pb = true → count_breaks_in_paragraph q.1 = 0) ∧
        get_list_info q.1 ni = .ok (some q.2) ∧
        q.2.num_id = ident.1 ∧ q.2.is_ordered = ident.2) →
      ∀ st', processChildren pb si ni st (pairs.map Prod.fst) = .ok st' →
        st' = ⟨st.blocks,
          { st.stats with dropped_breaks :=
              st.stats.dropped_breaks + totalBreaks (pairs.map Prod.fst) },
          some (ident.2, acc ++ pairs.map (fun q => (get_text q.1, q.2.ilvl))),
          some ident⟩ := by
  intro pairs
  induction pairs with
  | nil =>
    intro st acc h1 h2 _ st' h
    cases h
    simp only [List.map_nil, totalBreaks, List.sum_nil, List.append_nil]
    cases st with
    | mk blocks stats cl ci =>
      simp only at h1 h2
      simp [h1, h2]
  | cons q rest ih =>
    obtain ⟨e, li⟩ := q
    intro st acc h1 h2 hpairs st' h
    obtain ⟨htag, hbf, hli, hnid, hord⟩ :=
      hpairs (e, li) (List.mem_cons_self _ _)
    rw [List.map_cons, processChildren,
      processChild_p_list pb si ni st e li htag hli] at h
    have hident : (li.num_id, li.is_ordered) = ident := by
      rw [hnid, hord]
    set st1 := breakHandle pb st (count_breaks_in_paragraph e) with hst1
    have hb := breakHandle_no_preserve_eq pb st
      (count_breaks_in_paragraph e) hbf
    have h1' : st1.current_list = some (li.is_ordered, acc) := by
      rw [hst1, hb, hord]; exact h1
    have h2' : st1.current_list_identity =
        some (li.num_id, li.is_ordered) := by
      rw [hst1, hb, hident]; exact h2
    rw [listStep_extend st1 li (get_text e) acc h1' h2'] at h
    have hrest : ∀ q ∈ rest, q.1.tag = "p" ∧
        (pb = true → count_breaks_in_paragraph q.1 = 0) ∧
        get_list_info q.1 ni = .ok (some q.2) ∧
        q.2.num_id = ident.1 ∧ q.2.is_ordered = ident.2 :=
      fun q hq => hpairs q (List.mem_cons_of_mem _ hq)
    have hcl2 : ({ st1 with
        current_list := some (li.is_ordered, acc ++ [(get_text e, li.ilvl)]) } :
          LoopState).current_list =
        some (ident.2, acc ++ [(get_text e, li.ilvl)]) := by
      rw [← hord]
    have hci2 : ({ st1 with
        current_list := some (li.is_ordered, acc ++ [(get_text e, li.ilvl)]) } :
          LoopState).current_list_identity = some ident := by
      show st1.current_list_identity = some ident
      rw [h2', hident]
    have := ih _ (acc ++ [(get_text e, li.ilvl)]) hcl2 hci2 hrest st' h
    rw [this]
    have htot : totalBreaks ((e, li).1 :: rest.map Prod.fst) =
        count_breaks_in_paragraph e + totalBreaks (rest.map Prod.fst) := by
      simp only [totalBreaks, List.map_cons, List.sum_cons]
      congr 1
      unfold childBreaks
      rw [if_pos (by rw [htag]; rfl)]
    have hdropp : st.stats.dropped_breaks +
          (if pb = true then 0 else count_breaks_in_paragraph e) +
          totalBreaks (rest.map Prod.fst) =
        st.stats.dropped_breaks +
          totalBreaks (e :: rest.map Prod.fst) := by
      have he : totalBreaks (e :: rest.map Prod.fst) =
          count_breaks_in_paragraph e + totalBreaks (rest.map Prod.fst) := htot
      rw [he]
      cases pb with
      | true => rw [hbf rfl]; simp
      | false => simp; omega
    simp only [hst1, hb, List.map_cons]
    rw [hdropp, ← List.append_cons]

/-- `classifyStep` appends only non-list blocks after the flush and leaves
the (flushed) list state untouched. -/
theorem classifyStep_blocks (si : StyleMap) (st : LoopState) (para : Elem)
    (text : String) :
    ∃ tail, (classifyStep si st para text).blocks =
        (flushList st).blocks ++ tail ∧
      (∀ b ∈ tail, isListBlock b = false) ∧
      (classifyStep si st para text).current_list =
        (flushList st).current_list := by
  unfold classifyStep
  cases hps : paraStyleResolved si para with
  | none =>
    dsimp only
    by_cases hk : pyStripTruthy text = true
    · rw [if_pos hk]
      exact ⟨[Block.paragraph text], rfl, by simp [isListBlock], rfl⟩
    · rw [if_neg hk]
      exact ⟨[], (List.append_nil _).symm,
        fun b hb => absurd hb (List.not_mem_nil b), rfl⟩
  | some tr =>
    obtain ⟨l, is_t, is_s⟩ := tr
    dsimp only
    cases is_t with
    | true =>
      exact ⟨[Block.title text], rfl, by simp [isListBlock], rfl⟩
    | false =>
      cases is_s with
      | true =>
        simp only [Bool.false_eq_true, if_false, if_true]
        exact ⟨[Block.subtitle text], rfl, by simp [isListBlock], trivial⟩
      | false =>
        simp only [Bool.false_eq_true, if_false]
        exact ⟨[Block.heading l text], rfl, by simp [isListBlock], trivial⟩

/-- C3 (amended): starting with no open list, a nonempty run of consecutive
list-item paragraphs sharing the `(list-id, ordered)` identity `ident` —
each free of page/section breaks whenever break preservation is on — emits
no block by itself and accumulates all its items, in document order and
each with its own text and level, into the single open list; flushing
(which is what the end of the body or any non-list block does) appends
exactly one `List` block with all those items; a following list item of a
different identity closes that block and opens a fresh list holding only
its own item; a following non-list paragraph closes that block and appends
only non-list blocks after it. -/
theorem list_grouping (pb : Bool) (si : StyleMap) (ni : NumberingInfo)
    (st0 : LoopState) (pairs : List (Elem × ListInfo))
    (ident : Option String × Bool)
    (hcl : st0.current_list = none) (hci : st0.current_list_identity = none)
    (hpairs : ∀ q ∈ pairs, q.1.tag = "p" ∧
      (pb = true → count_breaks_in_paragraph q.1 = 0) ∧
      get_list_info q.1 ni = .ok (some q.2) ∧
      q.2.num_id = ident.1 ∧ q.2.is_ordered = ident.2)
    (hne : pairs ≠ []) (st' : LoopState)
    (hrun : processChildren pb si ni st0 (pairs.map Prod.fst) = .ok st') :
    (st'.blocks = st0.blocks ∧
     st'.current_list =
       some (ident.2, pairs.map (fun q => (get_text q.1, q.2.ilvl))) ∧
     st'.current_list_identity = some ident) ∧
    ((flushList st').blocks = st0.blocks ++
       [.list ident.2 (pairs.map (fun q => (get_text q.1, q.2.ilvl)))] ∧
     (flushList st').current_list = none) ∧
    (∀ (e2 : Elem) (li2 : ListInfo) (st2 : LoopState),
      e2.tag = "p" → (pb = true → count_breaks_in_paragraph e2 = 0) →
      get_list_info e2 ni = .ok (some li2) →
      (li2.num_id, li2.is_ordered) ≠ ident →
      processChild pb si ni st' e2 = .ok st2 →
      st2.blocks = st0.blocks ++
        [.list ident.2 (pairs.map (fun q => (get_text q.1, q.2.ilvl)))] ∧
      st2.current_list = some (li2.is_ordered, [(get_text e2, li2.ilvl)]) ∧
      st2.current_list_identity = some (li2.num_id, li2.is_ordered)) ∧
    (∀ (e2 : Elem) (st2 : LoopState),
      e2.tag = "p" → (pb = true → count_breaks_in_paragraph e2 = 0) →
      get_list_info e2 ni = .ok none →
      processChild pb si ni st' e2 = .ok st2 →
      ∃ tail, st2.blocks = st0.blocks ++
          Block.list ident.2 (pairs.map (fun q => (get_text q.1, q.2.ilvl)))
            :: tail ∧
        (∀ b ∈ tail, isListBlock b = false) ∧
        st2.current_list = none) := by
  -- first, the closed form of the state after the run
  have hst' : st' = ⟨st0.blocks,
      { st0.stats with dropped_breaks :=
          st0.stats.dropped_breaks + totalBreaks (pairs.map Prod.fst) },
      some (ident.2, pairs.map (fun q => (get_text q.1, q.2.ilvl))),
      some ident⟩ := by
    cases pairs with
    | nil => exact absurd rfl hne
    | cons q rest =>
      obtain ⟨e, li⟩ := q
      obtain ⟨htag, hbf, hli, hnid, hord⟩ :=
        hpairs (e, li) (List.mem_cons_self _ _)
      have hident : (li.num_id, li.is_ordered) = ident := by rw [hnid, hord]
      rw [List.map_cons, processChildren,
        processChild_p_list pb si ni st0 e li htag hli] at hrun
      have hb := breakHandle_no_preserve_eq pb st0
        (count_breaks_in_paragraph e) hbf
      have hop : (breakHandle pb st0
          (count_breaks_in_paragraph e)).current_list_identity ≠
          some (li.num_id, li.is_ordered) := by
        rw [hb]
        show st0.current_list_identity ≠ _
        rw [hci]
        simp
      rw [listStep_open _ li (get_text e) hop] at hrun
      have hfl : flushList (breakHandle pb st0
          (count_breaks_in_paragraph e)) =
          breakHandle pb st0 (count_breaks_in_paragraph e) := by
        apply flushList_none
        rw [hb]
        exact hcl
      rw [hfl, hb] at hrun
      have hrest : ∀ q ∈ rest, q.1.tag = "p" ∧
          (pb = true → count_breaks_in_paragraph q.1 = 0) ∧
          get_list_info q.1 ni = .ok (some q.2) ∧
          q.2.num_id = ident.1 ∧ q.2.is_ordered = ident.2 :=
        fun q hq => hpairs q (List.mem_cons_of_mem _ hq)
      have hext := processChildren_extend_run pb si ni ident rest _
        [(get_text e, li.ilvl)] (by rw [← hord]) (by rw [hident]) hrest st' hrun
      rw [hext]
      have htot : totalBreaks (e :: rest.map Prod.fst) =
          count_breaks_in_paragraph e + totalBreaks (rest.map Prod.fst) := by
        simp only [totalBreaks, List.map_cons, List.sum_cons]
        congr 1
        unfold childBreaks
        rw [if_pos (by rw [htag]; rfl)]
      simp only [List.map_cons]
      rw [List.singleton_append]
      have hdropp : st0.stats.dropped_breaks +
            (if pb = true then 0 else count_breaks_in_paragraph e) +
            totalBreaks (rest.map Prod.fst) =
          st0.stats.dropped_breaks + totalBreaks (e :: rest.map Prod.fst) := by
        rw [htot]
        cases pb with
        | true => rw [hbf rfl]; simp
        | false => simp; omega
      rw [hdropp]
  have hcl' : st'.current_list =
      some (ident.2, pairs.map (fun q => (get_text q.1, q.2.ilvl))) := by
    rw [hst']
  have hci' : st'.current_list_identity = some ident := by rw [hst']
  have hbl' : st'.blocks = st0.blocks := by rw [hst']
  obtain ⟨hfb, hfc, _⟩ := flushList_closed st' ident.2
    (pairs.map (fun q => (get_text q.1, q.2.ilvl))) hcl'
  refine ⟨⟨hbl', hcl', hci'⟩, ⟨by rw [hfb, hbl'], hfc⟩, ?_, ?_⟩
  · -- a different-identity list item splits the run
    intro e2 li2 st2 htag2 hbf2 hli2 hid2 hstep
    rw [processChild_p_list pb si ni st' e2 li2 htag2 hli2] at hstep
    have hb2 := breakHandle_no_preserve_eq pb st'
      (count_breaks_in_paragraph e2) hbf2
    have hop2 : (breakHandle pb st'
        (count_breaks_in_paragraph e2)).current_list_identity ≠
        some (li2.num_id, li2.is_ordered) := by
      rw [hb2]
      show st'.current_list_identity ≠ _
      rw [hci']
      intro hcon
      exact hid2 (by injection hcon with hx; exact hx.symm)
    rw [listStep_open _ li2 (get_text e2) hop2] at hstep
    have hcl2 : (breakHandle pb st'
        (count_breaks_in_paragraph e2)).current_list =
        some (ident.2, pairs.map (fun q => (get_text q.1, q.2.ilvl))) := by
      rw [hb2]; exact hcl'
    obtain ⟨hfb2, hfc2, hfi2⟩ := flushList_closed _ ident.2 _ hcl2
    cases hstep
    refine ⟨?_, rfl, rfl⟩
    show (flushList (breakHandle pb st'
      (count_breaks_in_paragraph e2))).blocks = _
    rw [hfb2, hb2]
    show st'.blocks ++ _ = _
    rw [hbl']
  · -- a non-list paragraph splits the run and appends only non-list blocks
    intro e2 st2 htag2 hbf2 hli2 hstep
    rw [processChild_p_nonlist pb si ni st' e2 htag2 hli2] at hstep
    have hb2 := breakHandle_no_preserve_eq pb st'
      (count_breaks_in_paragraph e2) hbf2
    have hcl2 : (breakHandle pb st'
        (count_breaks_in_paragraph e2)).current_list =
        some (ident.2, pairs.map (fun q => (get_text q.1, q.2.ilvl))) := by
      rw [hb2]; exact hcl'
    obtain ⟨hfb2, hfc2, hfi2⟩ := flushList_closed _ ident.2 _ hcl2
    obtain ⟨tail, hcb, htail, hcc⟩ := classifyStep_blocks si
      (breakHandle pb st' (count_breaks_in_paragraph e2)) e2 (get_text e2)
    cases hstep
    refine ⟨tail, ?_, htail, ?_⟩
    · rw [hcb, hfb2, hb2]
      show st'.blocks ++ _ ++ _ = _
      rw [hbl', List.append_assoc]
      rfl
    · rw [hcc, hfc2]

/-- C3 (counterexample): two consecutive list items of the same
`(list-id, ordered)` identity — one maximal run — parsed with break
preservation on, where the second item contains a page break: the output
holds two `List` blocks (with a `Break` between them), not the single
`List` block with both items that the claim requires. -/
theorem list_grouping_claim_counterexample :
    parse_docx exArchiveListSplit false true = .ok
      ⟨[.list false [("one", 0)], .pageBreak, .list false [("two", 0)]],
       { stats0 with lists_bulleted := 2 }⟩ ∧
    ([Block.list false [("one", 0)], Block.pageBreak,
      Block.list false [("two", 0)]].countP isListBlock) = 2 ∧ (2 ≠ 1) := by
  decide

/-- C3 (witness): a concrete break-free two-item run under numbering id 5. -/
theorem list_grouping_witness :
    ((⟨[], stats0, some (false, [("one", 0), ("two", 0)]),
        some (some "5", false)⟩ : LoopState).blocks = [] ∧
     (⟨[], stats0, some (false, [("one", 0), ("two", 0)]),
        some (some "5", false)⟩ : LoopState).current_list =
       some (false, [("one", 0), ("two", 0)]) ∧
     (⟨[], stats0, some (false, [("one", 0), ("two", 0)]),
        some (some "5", false)⟩ : LoopState).current_list_identity =
       some (some "5", false)) ∧
    ((flushList ⟨[], stats0, some (false, [("one", 0), ("two", 0)]),
        some (some "5", false)⟩).blocks =
       [] ++ [.list false [("one", 0), ("two", 0)]] ∧
     (flushList ⟨[], stats0, some (false, [("one", 0), ("two", 0)]),
        some (some "5", false)⟩).current_list = none) := by
  have h := list_grouping false [] emptyNumbering ⟨[], stats0, none, none⟩
    [(exListItem "one" [], ⟨some "5", 0, false⟩),
     (exListItem "two" [], ⟨some "5", 0, false⟩)]
    (some "5", false) rfl rfl (by decide) (by decide)
    ⟨[], stats0, some (false, [("one", 0), ("two", 0)]),
      some (some "5", false)⟩ (by decide)
  exact ⟨h.1, h.2.1⟩

/-! ## Claim C8: empty-paragraph suppression -/

theorem flushList_delta (st : LoopState) :
    ∃ δ, (flushList st).blocks = st.blocks ++ δ ∧
      ∀ b ∈ δ, isListBlock b = true := by
  unfold flushList
  cases st.current_list with
  | none => exact ⟨[], (List.append_nil _).symm,
      fun b hb => absurd hb (List.not_mem_nil b)⟩
  | some pr =>
    obtain ⟨ord, items⟩ := pr
    exact ⟨[Block.list ord items], rfl, by simp [isListBlock]⟩

theorem breakHandle_delta (pb : Bool) (st : LoopState) (n : Nat) :
    ∃ δ, (breakHandle pb st n).blocks = st.blocks ++ δ ∧
      ∀ b ∈ δ, isBreakBlock b = true ∨ isListBlock b = true := by
  unfold breakHandle
  by_cases hn : n > 0
  · rw [if_pos hn]
    cases pb with
    | true =>
      obtain ⟨δf, hf, hfm⟩ := flushList_delta st
      refine ⟨δf ++ List.replicate n Block.pageBreak, ?_, ?_⟩
      · show (flushList st).blocks ++ _ = _
        rw [hf, List.append_assoc]
      · intro b hb
        rcases List.mem_append.1 hb with hb | hb
        · exact .inr (hfm b hb)
        · exact .inl (by rw [List.eq_of_mem_replicate hb]; rfl)
    | false =>
      exact ⟨[], (List.append_nil _).symm,
        fun b hb => absurd hb (List.not_mem_nil b)⟩
  · rw [if_neg hn]
    exact ⟨[], (List.append_nil _).symm,
      fun b hb => absurd hb (List.not_mem_nil b)⟩

theorem classifyStep_suppressed (si : StyleMap) (st : LoopState) (para : Elem)
    (text : String) (hps : paraStyleResolved si para = none)
    (htext : pyStripTruthy text = false) :
    (classifyStep si st para text).blocks = (flushList st).blocks := by
  unfold classifyStep
  rw [hps]
  dsimp only
  rw [if_neg (by rw [htext]; exact Bool.false_ne_true)]

theorem classifyStep_styled (si : StyleMap) (st : LoopState) (para : Elem)
    (text : String) (l : Nat) (is_t is_s : Bool)
    (hps : paraStyleResolved si para = some (l, is_t, is_s)) :
    (classifyStep si st para text).blocks = (flushList st).blocks ++
      [if is_t then Block.title text
       else if is_s then Block.subtitle text
       else Block.heading l text] := by
  unfold classifyStep
  rw [hps]
  dsimp only
  cases is_t with
  | true => rfl
  | false =>
    cases is_s with
    | true => rfl
    | false => rfl

/-- C8: for a non-list body paragraph, when its extracted text is blank and
its style does not resolve to a title, subtitle or heading level, no block
is appended for it (only `Break` blocks for its own breaks and the flushed
open list can be appended by its processing); when its style does resolve,
the corresponding `Title`/`Subtitle`/`Heading` block is always appended —
even when the extracted text is empty. -/
theorem empty_paragraph_suppression (pb : Bool) (si : StyleMap)
    (ni : NumberingInfo) (st : LoopState) (e : Elem) (st' : LoopState)
    (htag : e.tag = "p") (hli : get_list_info e ni = .ok none)
    (hstep : processChild pb si ni st e = .ok st') :
    (pyStripTruthy (get_text e) = false → paraStyleResolved si e = none →
      ∃ δ, st'.blocks = st.blocks ++ δ ∧
        ∀ b ∈ δ, isBreakBlock b = true ∨ isListBlock b = true) ∧
    (∀ (l : Nat) (is_t is_s : Bool),
      paraStyleResolved si e = some (l, is_t, is_s) →
      ∃ δ, st'.blocks = st.blocks ++ (δ ++
          [if is_t then Block.title (get_text e)
           else if is_s then Block.subtitle (get_text e)
           else Block.heading l (get_text e)]) ∧
        ∀ b ∈ δ, isBreakBlock b = true ∨ isListBlock b = true) := by
  rw [processChild_p_nonlist pb si ni st e htag hli] at hstep
  cases hstep
  obtain ⟨δ1, hb1, hm1⟩ :=
    breakHandle_delta pb st (count_breaks_in_paragraph e)
  obtain ⟨δ2, hb2, hm2⟩ :=
    flushList_delta (breakHandle pb st (count_breaks_in_paragraph e))
  constructor
  · intro htext hps
    refine ⟨δ1 ++ δ2, ?_, ?_⟩
    · rw [classifyStep_suppressed si _ e (get_text e) hps htext, hb2, hb1,
        List.append_assoc]
    · intro b hb
      rcases List.mem_append.1 hb with hb | hb
      · exact hm1 b hb
      · exact .inr (hm2 b hb)
  · intro l is_t is_s hps
    refine ⟨δ1 ++ δ2, ?_, ?_⟩
    · rw [classifyStep_styled si _ e (get_text e) l is_t is_s hps, hb2, hb1,
        List.append_assoc, List.append_assoc]
      simp [List.append_assoc]
    · intro b hb
      rcases List.mem_append.1 hb with hb | hb
      · exact hm1 b hb
      · exact .inr (hm2 b hb)

/-- C8 (witness): a blank unstyled paragraph appends nothing; a heading
paragraph whose text is empty is still appended. -/
theorem empty_paragraph_suppression_witness :
    (∃ δ, ([] : List Block) = [] ++ δ ∧
      ∀ b ∈ δ, isBreakBlock b = true ∨ isListBlock b = true) ∧
    (∃ δ, [Block.heading 1 ""] = [] ++ (δ ++ [Block.heading 1 ""]) ∧
      ∀ b ∈ δ, isBreakBlock b = true ∨ isListBlock b = true) := by
  constructor
  · have h := empty_paragraph_suppression false [] emptyNumbering
      ⟨[], stats0, none, none⟩ (.mk "p" [] none [])
      ⟨[], { stats0 with paragraphs := 1 }, none, none⟩
      rfl (by decide) (by decide)
    exact h.1 (by decide) (by decide)
  · have h := empty_paragraph_suppression false
      [(some "H1", ⟨some "Heading 1", none, some 1, false, false⟩)]
      emptyNumbering ⟨[], stats0, none, none⟩
      (.mk "p" [] none [.mk "pPr" [] none [.mk "pStyle" [("val", "H1")] none []]])
      ⟨[Block.heading 1 ""], { stats0 with headings := [("level_1", 1)] },
        none, none⟩
      rfl (by decide) (by decide)
    have h2 := h.2 1 false false (by decide)
    exact h2

/-! ## Claim C10: document without a body element -/

theorem count_eq_zero_of_not_mem {a : String} {l : List String} (h : a ∉ l) :
    l.count a = 0 :=
  List.count_eq_zero.2 h

/-- C10 (amended): if the main document resource parses but has no body
element, and the style catalog does not trigger the uncaught style-name
crash, `parse_docx` returns an empty block sequence, all counters zero, and
its warnings contain exactly one no-body warning. -/
theorem no_body_warning (entries : List (String × EntryData)) (root : Elem)
    (v pb : Bool) (si : StyleMap) (sw : List String)
    (hdoc : lookupEntry entries "word/document.xml" = some (.good (.wf root)))
    (hbody : root.findDesc "body" = none)
    (hstyles : stylesStage (readOptional entries "word/styles.xml"
        "Error reading styles.xml: ").1 = .ok (si, sw)) :
    ∃ ws, parse_docx (.zip entries) v pb =
        .ok ⟨[], { stats0 with warnings := ws }⟩ ∧
      ws.count "No body element found in document" = 1 := by
  simp only [parse_docx, prePhase, hdoc]
  cases hro1 : readOptional entries "word/styles.xml"
      "Error reading styles.xml: " with
  | mk ssrc w1 =>
    rw [hro1] at hstyles
    simp only at hstyles
    simp only
    rw [hstyles]
    simp only
    rw [hbody]
    refine ⟨w1 ++
        (readOptional entries "word/numbering.xml"
          "Error reading numbering.xml: ").2 ++ sw ++
        (numberingStage (readOptional entries "word/numbering.xml"
          "Error reading numbering.xml: ").1).2 ++
        ["No body element found in document"], rfl, ?_⟩
    have hhead : ("No body element found in document" : String).data.head? =
        some 'N' := by rfl
    have hz : ∀ (part : List String) (p : String),
        (part = [] ∨ ∃ e, part = [p ++ e]) →
        (p.data.head? = some 'E' ∨ p.data.head? = some 'M') →
        part.count "No body element found in document" = 0 := by
      intro part p hpart hp
      apply count_eq_zero_of_not_mem
      rcases hpart with rfl | ⟨e, rfl⟩
      · exact List.not_mem_nil _
      · intro hmem
        have heq := (List.mem_singleton.1 hmem).symm
        rcases hp with hh | hh
        · exact append_ne_of_head p e _ 'E' 'N' hh hhead (by decide) heq
        · exact append_ne_of_head p e _ 'M' 'N' hh hhead (by decide) heq
    have h1 := readOptional_snd entries "word/styles.xml"
      "Error reading styles.xml: "
    rw [hro1] at h1
    have h2 := readOptional_snd entries "word/numbering.xml"
      "Error reading numbering.xml: "
    have h3 := stylesStage_ok_snd ssrc si sw hstyles
    have h4 := numberingStage_snd
      (readOptional entries "word/numbering.xml"
        "Error reading numbering.xml: ").1
    simp only [List.count_append]
    rw [hz w1 "Error reading styles.xml: " h1 (.inl rfl),
      hz _ "Error reading numbering.xml: " h2 (.inl rfl),
      hz sw "Malformed styles.xml: " h3 (.inr rfl),
      hz _ "Malformed numbering.xml: " h4 (.inr rfl)]
    rfl

/-- C10 (counterexample): the same no-body document packaged with a style
catalog containing a name element without a value makes `parse_docx` raise
before the body check is reached, so the claim's unconditional "returns the
no-body warning and does not raise" is false as stated. -/
theorem no_body_claim_counterexample :
    parse_docx exArchiveNoBodyCrash false false = .error .attributeError := by
  decide

/-- C10 (witness): the plain no-body archive. -/
theorem no_body_warning_witness :
    ∃ ws, parse_docx exArchiveNoBody false false =
        .ok ⟨[], { stats0 with warnings := ws }⟩ ∧
      ws.count "No body element found in document" = 1 :=
  no_body_warning [("word/document.xml", .good (.wf exNoBodyRoot))]
    exNoBodyRoot false false [] [] rfl (by decide) rfl

end Docx2Pages
